import Mathlib

/-!
Verification development for the subculture notice-aggregation pipeline
(`api/src/services/ingest.ts`, `scheduling.ts`, `dispatch.ts`).

Modelling conventions, applied uniformly:
* Timestamps (`timestamptz` columns, JS `Date` values) are modelled as `Int`
  milliseconds since the Unix epoch; `Date.getTime()` arithmetic carries over
  directly.
* The JS confidence scores are decimal numbers with two fractional digits
  (0.35, 0.25, 0.22, 0.2, 0.15, 0.1, 0.05); they are modelled exactly in
  hundredths as `Nat` (35, 25, 22, 20, 15, 10, 5), so `min(1, ...)` becomes
  `min 100 ...` and the 0.65 visibility threshold becomes 65.
* SQL tables are lists of row structures; `ON CONFLICT ... DO UPDATE` is an
  in-place map over the matching rows, a plain `INSERT` is an append.
* `sha256` enters only through equality and truncation of its output, so the
  hash is a parameter `hash : String → String` of the definitions that use it.
-/

namespace Subculture

inductive EventType where
  | PICKUP | UPDATE | MAINTENANCE | EVENT | CAMPAIGN
deriving DecidableEq, Repr

inductive Visibility where
  | PUBLIC | NEED_REVIEW | HIDDEN
deriving DecidableEq, Repr

inductive RuleScope where
  | GLOBAL | REGION
deriving DecidableEq, Repr

inductive RuleTrigger where
  | ON_START | ON_END | BEFORE_END | BEFORE_START | ON_PUBLISH
deriving DecidableEq, Repr

inductive Channel where
  | WEBPUSH | EMAIL | DISCORD
deriving DecidableEq, Repr

inductive SchedStatus where
  | PENDING | PROCESSING | SENT | FAILED | CANCELED
deriving DecidableEq, Repr

inductive RawStatus where
  | NEW | PARSED | ERROR
deriving DecidableEq, Repr

inductive DeliveryResult where
  | SUCCESS | FAILED
deriving DecidableEq, Repr

/-! ### Decimal rendering of numbers (JS `String(number)` / template literals) -/

def digitChar (d : Nat) : Char :=
  if d = 0 then '0' else if d = 1 then '1' else if d = 2 then '2'
  else if d = 3 then '3' else if d = 4 then '4' else if d = 5 then '5'
  else if d = 6 then '6' else if d = 7 then '7' else if d = 8 then '8' else '9'

theorem digitChar_toNat (d : Nat) (h : d < 10) : (digitChar d).toNat = 48 + d := by
  interval_cases d <;> decide

/-- Decimal digit list of a natural number, most significant digit first.
Structural recursion on a fuel bound so that the kernel can evaluate it. -/
def natDigitsAux : Nat → Nat → List Char
  | 0, _ => []
  | fuel + 1, n =>
    if n < 10 then [digitChar n]
    else natDigitsAux fuel (n / 10) ++ [digitChar (n % 10)]

def natDigits (n : Nat) : List Char := natDigitsAux (n + 1) n

theorem natDigitsAux_fuel_irrel :
    ∀ f1 : Nat, ∀ f2 n : Nat, n < f1 → n < f2 → natDigitsAux f1 n = natDigitsAux f2 n := by
  intro f1
  induction f1 with
  | zero => omega
  | succ f ih =>
    intro f2 n h1 h2
    cases f2 with
    | zero => omega
    | succ g =>
      unfold natDigitsAux
      split
      · rfl
      · rw [ih g (n / 10) (by omega) (by omega)]

theorem natDigits_eq (n : Nat) :
    natDigits n = if n < 10 then [digitChar n]
      else natDigits (n / 10) ++ [digitChar (n % 10)] := by
  unfold natDigits
  conv_lhs => rw [natDigitsAux]
  split
  · rfl
  · rw [natDigitsAux_fuel_irrel n (n / 10 + 1) (n / 10) (by omega) (by omega)]

def digitsVal (l : List Char) : Nat :=
  l.foldl (fun a c => 10 * a + (c.toNat - 48)) 0

theorem digitsVal_append_singleton (l : List Char) (c : Char) :
    digitsVal (l ++ [c]) = 10 * digitsVal l + (c.toNat - 48) := by
  simp [digitsVal, List.foldl_append]

theorem digitsVal_natDigits (n : Nat) : digitsVal (natDigits n) = n := by
  induction n using Nat.strong_induction_on with
  | _ n ih =>
    rw [natDigits_eq]
    split
    · rename_i h
      simp [digitsVal, digitChar_toNat n h]
    · rename_i h
      rw [digitsVal_append_singleton, ih (n / 10) (Nat.div_lt_self (by omega) (by omega)),
        digitChar_toNat (n % 10) (Nat.mod_lt _ (by omega))]
      omega

theorem natDigits_mem_range (n : Nat) :
    ∀ c ∈ natDigits n, 48 ≤ c.toNat ∧ c.toNat ≤ 57 := by
  induction n using Nat.strong_induction_on with
  | _ n ih =>
    rw [natDigits_eq]
    split
    · rename_i h
      intro c hc
      simp at hc
      subst hc
      rw [digitChar_toNat n h]
      omega
    · rename_i h
      intro c hc
      rw [List.mem_append] at hc
      rcases hc with hc | hc
      · exact ih (n / 10) (Nat.div_lt_self (by omega) (by omega)) c hc
      · simp at hc
        subst hc
        rw [digitChar_toNat (n % 10) (Nat.mod_lt _ (by omega))]
        omega

theorem natDigits_ne_nil (n : Nat) : natDigits n ≠ [] := by
  rw [natDigits_eq]
  split <;> simp

theorem natDigits_inj {a b : Nat} (h : natDigits a = natDigits b) : a = b := by
  have := digitsVal_natDigits a
  rw [h, digitsVal_natDigits] at this
  omega

theorem natDigits_no_colon (n : Nat) : ∀ c ∈ natDigits n, c ≠ ':' := by
  intro c hc he
  have := natDigits_mem_range n c hc
  subst he
  exact absurd this (by decide)

theorem natDigits_no_dash (n : Nat) : ∀ c ∈ natDigits n, c ≠ '-' := by
  intro c hc he
  have := natDigits_mem_range n c hc
  subst he
  exact absurd this (by decide)

/-- Decimal character list of an integer (with leading minus sign when negative),
as produced by JS number-to-string conversion for integral values. -/
def intChars (i : Int) : List Char :=
  if i < 0 then '-' :: natDigits (-i).toNat else natDigits i.toNat

theorem intChars_no_colon (i : Int) : ∀ c ∈ intChars i, c ≠ ':' := by
  unfold intChars
  split
  · intro c hc
    simp at hc
    rcases hc with hc | hc
    · subst hc; decide
    · exact natDigits_no_colon _ c hc
  · exact natDigits_no_colon _

theorem intChars_inj {a b : Int} (h : intChars a = intChars b) : a = b := by
  unfold intChars at h
  split at h <;> split at h
  · rename_i ha hb
    simp at h
    have := natDigits_inj h
    omega
  · rename_i ha hb
    exfalso
    have hmem : '-' ∈ natDigits b.toNat := by
      rw [← h]; simp
    have := natDigits_mem_range b.toNat '-' hmem
    simp at this
  · rename_i ha hb
    exfalso
    have hmem : '-' ∈ natDigits a.toNat := by
      rw [h]; simp
    have := natDigits_mem_range a.toNat '-' hmem
    simp at this
  · rename_i ha hb
    have := natDigits_inj h
    omega

def natToStr (n : Nat) : String := ⟨natDigits n⟩

def intToStr (i : Int) : String := ⟨intChars i⟩

theorem string_append_data (a b : String) : (a ++ b).data = a.data ++ b.data := rfl

theorem string_data_inj {a b : String} (h : a.data = b.data) : a = b := by
  cases a
  cases b
  exact congrArg String.mk h

/-! ### Names of the enumerated column values, as stored in the database -/

def channelName : Channel → String
  | .WEBPUSH => "WEBPUSH"
  | .EMAIL => "EMAIL"
  | .DISCORD => "DISCORD"

def triggerName : RuleTrigger → String
  | .ON_START => "ON_START"
  | .ON_END => "ON_END"
  | .BEFORE_END => "BEFORE_END"
  | .BEFORE_START => "BEFORE_START"
  | .ON_PUBLISH => "ON_PUBLISH"

def eventTypeName : EventType → String
  | .PICKUP => "PICKUP"
  | .UPDATE => "UPDATE"
  | .MAINTENANCE => "MAINTENANCE"
  | .EVENT => "EVENT"
  | .CAMPAIGN => "CAMPAIGN"

theorem channelName_no_colon (c : Channel) : ∀ x ∈ (channelName c).data, x ≠ ':' := by
  cases c <;> decide

theorem triggerName_no_colon (t : RuleTrigger) : ∀ x ∈ (triggerName t).data, x ≠ ':' := by
  cases t <;> decide

theorem channelName_inj {a b : Channel} (h : channelName a = channelName b) : a = b := by
  cases a <;> cases b <;> first
    | rfl
    | exact absurd h (by decide)

theorem triggerName_inj {a b : RuleTrigger} (h : triggerName a = triggerName b) : a = b := by
  cases a <;> cases b <;> first
    | rfl
    | exact absurd h (by decide)

/-- `scheduling.ts` `makeDedupeKey`: the five identity components joined with
`":"` (JS `[userId, eventId, channel, trigger, offsetMinutes].join(":")`). -/
def makeDedupeKey (userId eventId : Nat) (channel : Channel) (trigger : RuleTrigger)
    (offsetMinutes : Int) : String :=
  natToStr userId ++ ":" ++ natToStr eventId ++ ":" ++ channelName channel ++ ":" ++
    triggerName trigger ++ ":" ++ intToStr offsetMinutes

theorem append_cons_colon_inj :
    ∀ (a : List Char) (b c d : List Char), (∀ x ∈ a, x ≠ ':') → (∀ x ∈ c, x ≠ ':') →
      a ++ ':' :: b = c ++ ':' :: d → a = c ∧ b = d := by
  intro a
  induction a with
  | nil =>
    intro b c d _ hc h
    cases c with
    | nil => simpa using h
    | cons y ys =>
      exfalso
      simp at h
      exact hc y (by simp) h.1.symm
  | cons x xs ih =>
    intro b c d ha hc h
    cases c with
    | nil =>
      exfalso
      simp at h
      exact ha x (by simp) h.1
    | cons y ys =>
      simp at h
      obtain ⟨hxy, hrest⟩ := h
      obtain ⟨h1, h2⟩ := ih b ys d (fun z hz => ha z (by simp [hz])) (fun z hz => hc z (by simp [hz])) hrest
      subst hxy h1 h2
      exact ⟨rfl, rfl⟩

theorem makeDedupeKey_inj {u1 u2 e1 e2 : Nat} {c1 c2 : Channel} {t1 t2 : RuleTrigger}
    {o1 o2 : Int} (h : makeDedupeKey u1 e1 c1 t1 o1 = makeDedupeKey u2 e2 c2 t2 o2) :
    u1 = u2 ∧ e1 = e2 ∧ c1 = c2 ∧ t1 = t2 ∧ o1 = o2 := by
  have hd : (makeDedupeKey u1 e1 c1 t1 o1).data = (makeDedupeKey u2 e2 c2 t2 o2).data := by
    rw [h]
  unfold makeDedupeKey at hd
  simp only [string_append_data, natToStr, intToStr] at hd
  simp only [List.append_assoc, List.cons_append, List.nil_append, List.singleton_append] at hd
  obtain ⟨hu, hd⟩ := append_cons_colon_inj _ _ _ _ (natDigits_no_colon u1) (natDigits_no_colon u2) hd
  obtain ⟨he, hd⟩ := append_cons_colon_inj _ _ _ _ (natDigits_no_colon e1) (natDigits_no_colon e2) hd
  obtain ⟨hc, hd⟩ := append_cons_colon_inj _ _ _ _ (channelName_no_colon c1) (channelName_no_colon c2) hd
  obtain ⟨ht, hd⟩ := append_cons_colon_inj _ _ _ _ (triggerName_no_colon t1) (triggerName_no_colon t2) hd
  exact ⟨natDigits_inj hu, natDigits_inj he, channelName_inj (string_data_inj hc),
    triggerName_inj (string_data_inj ht), intChars_inj hd⟩

/-! ### Data model (`scheduling.ts` row types; timestamps are epoch milliseconds).
`toDate` in the source converts nullable db values to `Date`/null; the model
folds that into `Option Int` fields directly. -/

structure EventRow where
  id : Nat
  regionId : Nat
  type : EventType
  title : String
  summary : String
  startAtUtc : Option Int
  endAtUtc : Option Int
  createdAt : Option Int
  visibility : Visibility
  sourceUrl : String
  canonicalEventKey : String
  confidence : Nat
deriving DecidableEq, Repr

structure RuleRow where
  id : Nat
  userId : Nat
  scope : RuleScope
  regionId : Option Nat
  eventType : EventType
  trigger : RuleTrigger
  offsetMinutes : Option Int
  channel : Channel
  enabled : Bool
deriving DecidableEq, Repr

/-- A `user_games` row (user subscription to a region). -/
structure UserGameRow where
  userId : Nat
  regionId : Nat
  enabled : Bool
deriving DecidableEq, Repr

/-- The payload object built by `upsertSchedule`. -/
structure SchedPayload where
  eventTitle : String
  eventType : EventType
  trigger : RuleTrigger
  offsetMinutes : Int
  channel : Channel
deriving DecidableEq, Repr

/-- A `notification_schedules` row.  The `dedupe_key` column is not stored
separately: it is always written as `makeDedupeKey` of the identity columns
(see `keyOf`), and the unique constraint is modelled by matching on that
computed key. -/
structure SchedRow where
  userId : Nat
  eventId : Nat
  channel : Channel
  triggerType : RuleTrigger
  triggerOffsetMinutes : Int
  scheduledAtUtc : Int
  status : SchedStatus
  payload : SchedPayload
deriving DecidableEq, Repr

def keyOf (r : SchedRow) : String :=
  makeDedupeKey r.userId r.eventId r.channel r.triggerType r.triggerOffsetMinutes

structure SchedulingDb where
  events : List EventRow
  rules : List RuleRow
  userGames : List UserGameRow
  schedules : List SchedRow
deriving DecidableEq, Repr

/-- `computeScheduledAt(rule, event)`; the implicit `new Date()` fallback for a
missing `created_at` is the explicit `now` argument. -/
def computeScheduledAt (rule : RuleRow) (event : EventRow) (now : Int) : Option Int :=
  let startAt := event.startAtUtc
  let endAt := event.endAtUtc
  let createdAt := event.createdAt.getD now
  let offsetMs := (rule.offsetMinutes.getD 0) * 60 * 1000
  match rule.trigger with
  | .ON_START => startAt
  | .ON_END => endAt
  | .BEFORE_END => endAt.map (fun e => e - offsetMs)
  | .BEFORE_START => startAt.map (fun s => s - offsetMs)
  | .ON_PUBLISH => some createdAt

/-- `getEvent(eventId)` (`SELECT ... FROM events WHERE id = $1`). -/
def getEvent (db : SchedulingDb) (eventId : Nat) : Option EventRow :=
  db.events.find? (fun e => e.id == eventId)

/-- `getEligibleRulesForEvent(event, userId)`. -/
def getEligibleRulesForEvent (db : SchedulingDb) (event : EventRow) (userId : Option Nat) :
    List RuleRow :=
  db.rules.filter (fun r =>
    r.enabled && r.eventType == event.type &&
      (r.scope == .GLOBAL || (r.scope == .REGION && r.regionId == some event.regionId)) &&
      (match userId with
       | some u => r.userId == u
       | none => true))

def dedupKeepFirst : List Nat → List Nat
  | [] => []
  | x :: xs => x :: (dedupKeepFirst xs).filter (fun y => y ≠ x)

/-- `getTargetUsersForRegion(regionId, userId)` (`SELECT DISTINCT user_id FROM
user_games WHERE region_id = $1 AND enabled = true`). -/
def getTargetUsersForRegion (db : SchedulingDb) (regionId : Nat) (userId : Option Nat) :
    List Nat :=
  dedupKeepFirst ((db.userGames.filter (fun ug =>
    ug.regionId == regionId && ug.enabled &&
      (match userId with
       | some u => ug.userId == u
       | none => true))).map (fun ug => ug.userId))

def mkSchedPayload (event : EventRow) (rule : RuleRow) : SchedPayload :=
  { eventTitle := event.title
    eventType := event.type
    trigger := rule.trigger
    offsetMinutes := rule.offsetMinutes.getD 0
    channel := rule.channel }

/-- The fresh row inserted by `upsertSchedule` when no row with the dedupe key
exists (`INSERT ... VALUES (..., 'PENDING', ...)`). -/
def mkSchedRow (userId : Nat) (event : EventRow) (rule : RuleRow) (scheduledAt : Int) :
    SchedRow :=
  { userId := userId
    eventId := event.id
    channel := rule.channel
    triggerType := rule.trigger
    triggerOffsetMinutes := rule.offsetMinutes.getD 0
    scheduledAtUtc := scheduledAt
    status := .PENDING
    payload := mkSchedPayload event rule }

/-- `upsertSchedule`: `INSERT ... ON CONFLICT (dedupe_key) DO UPDATE SET
scheduled_at_utc = EXCLUDED..., payload_json = EXCLUDED..., status = CASE WHEN
status = SENT THEN status ELSE PENDING END`. -/
def upsertSchedule (schedules : List SchedRow) (userId : Nat) (event : EventRow)
    (rule : RuleRow) (scheduledAt : Int) : List SchedRow :=
  if schedules.any (fun r => keyOf r == keyOf (mkSchedRow userId event rule scheduledAt)) then
    schedules.map (fun r =>
      if keyOf r == keyOf (mkSchedRow userId event rule scheduledAt) then
        { r with
          scheduledAtUtc := (mkSchedRow userId event rule scheduledAt).scheduledAtUtc
          payload := (mkSchedRow userId event rule scheduledAt).payload
          status := if r.status = .SENT then r.status else .PENDING }
      else r)
  else
    schedules ++ [mkSchedRow userId event rule scheduledAt]

/-- The body of the per-rule loop in `planForEventAndUsers`, acting on the
accumulator `(schedules, planned, skipped)`. -/
def planJobsStep (event : EventRow) (now : Int) (acc : List SchedRow × Nat × Nat)
    (job : Nat × RuleRow) : List SchedRow × Nat × Nat :=
  match computeScheduledAt job.2 event now with
  | none => (acc.1, acc.2.1, acc.2.2 + 1)
  | some t =>
    if t < now - 5 * 60 * 1000 then (acc.1, acc.2.1, acc.2.2 + 1)
    else (upsertSchedule acc.1 job.1 event job.2 t, acc.2.1 + 1, acc.2.2)

/-- The `(user, rule)` jobs iterated by `planForEventAndUsers` (the
`groupedRulesByUser` map in insertion order). -/
def jobList (db : SchedulingDb) (event : EventRow) (explicitUserId : Option Nat) :
    List (Nat × RuleRow) :=
  (getTargetUsersForRegion db event.regionId explicitUserId).flatMap (fun u =>
    (getEligibleRulesForEvent db event (some u)).map (fun r => (u, r)))

/-- `planForEventAndUsers(event, explicitUserId)`; returns the new schedule
table and the `(planned, skipped)` counters. -/
def planForEventAndUsers (db : SchedulingDb) (event : EventRow)
    (explicitUserId : Option Nat) (now : Int) : List SchedRow × Nat × Nat :=
  if event.visibility ≠ .PUBLIC then (db.schedules, 0, 0)
  else if getTargetUsersForRegion db event.regionId explicitUserId = [] then
    (db.schedules, 0, 0)
  else
    (jobList db event explicitUserId).foldl (planJobsStep event now) (db.schedules, 0, 0)

/-- The purge that `planNotificationsForEvent` runs first:
`DELETE FROM notification_schedules WHERE event_id = $1 AND status IN
('PENDING', 'FAILED', 'CANCELED')`. -/
def purgeForEvent (schedules : List SchedRow) (eventId : Nat) : List SchedRow :=
  schedules.filter (fun r =>
    !(r.eventId == eventId &&
      (r.status == .PENDING || r.status == .FAILED || r.status == .CANCELED)))

/-- `planNotificationsForEvent(eventId)`. -/
def planNotificationsForEvent (db : SchedulingDb) (eventId : Nat) (now : Int) :
    SchedulingDb × Nat × Nat :=
  match getEvent db eventId with
  | none => (db, 0, 0)
  | some event =>
    let purged := purgeForEvent db.schedules eventId
    let db1 := { db with schedules := purged }
    let r := planForEventAndUsers db1 event none now
    ({ db1 with schedules := r.1 }, r.2.1, r.2.2)

/-- The purge that `rebuildSchedulesForUser` runs first:
`DELETE ... WHERE user_id = $1 AND status IN ('PENDING', 'FAILED', 'CANCELED')`. -/
def purgeForUser (schedules : List SchedRow) (userId : Nat) : List SchedRow :=
  schedules.filter (fun r =>
    !(r.userId == userId &&
      (r.status == .PENDING || r.status == .FAILED || r.status == .CANCELED)))

/-- The event selection of `rebuildSchedulesForUser`: currently PUBLIC events in
the user's enabled subscribed regions that did not end more than one day ago. -/
def rebuildEventsForUser (db : SchedulingDb) (userId : Nat) (now : Int) : List EventRow :=
  db.events.filter (fun e =>
    (db.userGames.any (fun ug => ug.userId == userId && ug.regionId == e.regionId && ug.enabled)) &&
      e.visibility == .PUBLIC &&
      (match e.endAtUtc with
       | none => true
       | some t => t ≥ now - 24 * 60 * 60 * 1000))

/-- The body of the per-event loop in `rebuildSchedulesForUser`. -/
def rebuildStep (userId : Nat) (now : Int) (acc : SchedulingDb × Nat × Nat)
    (event : EventRow) : SchedulingDb × Nat × Nat :=
  let r := planForEventAndUsers acc.1 event (some userId) now
  ({ acc.1 with schedules := r.1 }, acc.2.1 + r.2.1, acc.2.2 + r.2.2)

/-- `rebuildSchedulesForUser(userId)`. -/
def rebuildSchedulesForUser (db : SchedulingDb) (userId : Nat) (now : Int) :
    SchedulingDb × Nat × Nat :=
  let purged := purgeForUser db.schedules userId
  let db1 := { db with schedules := purged }
  (rebuildEventsForUser db1 userId now).foldl (rebuildStep userId now) (db1, 0, 0)

/-- A planning operation, with the time at which it runs. -/
inductive PlanOp where
  | planEvent (eventId : Nat) (now : Int)
  | rebuildUser (userId : Nat) (now : Int)

def applyPlanOp (db : SchedulingDb) : PlanOp → SchedulingDb
  | .planEvent eventId now => (planNotificationsForEvent db eventId now).1
  | .rebuildUser userId now => (rebuildSchedulesForUser db userId now).1

def applyPlanOps (db : SchedulingDb) (ops : List PlanOp) : SchedulingDb :=
  ops.foldl applyPlanOp db

/-! ### Preservation of SENT schedules by planning (claim C3) -/

/-- Every SENT row of `s` survives into `s'` (same dedupe key, still SENT). -/
def sentKeysPreserved (s s' : List SchedRow) : Prop :=
  ∀ r ∈ s, r.status = .SENT → ∃ r' ∈ s', keyOf r' = keyOf r ∧ r'.status = .SENT

theorem sentKeysPreserved_refl (s : List SchedRow) : sentKeysPreserved s s :=
  fun r hr hs => ⟨r, hr, rfl, hs⟩

theorem sentKeysPreserved_trans {s1 s2 s3 : List SchedRow}
    (h12 : sentKeysPreserved s1 s2) (h23 : sentKeysPreserved s2 s3) :
    sentKeysPreserved s1 s3 := by
  intro r hr hs
  obtain ⟨r2, hr2, hk2, hs2⟩ := h12 r hr hs
  obtain ⟨r3, hr3, hk3, hs3⟩ := h23 r2 hr2 hs2
  exact ⟨r3, hr3, hk3.trans hk2, hs3⟩

theorem sentKeysPreserved_purgeForEvent (s : List SchedRow) (eventId : Nat) :
    sentKeysPreserved s (purgeForEvent s eventId) := by
  intro r hr hs
  refine ⟨r, ?_, rfl, hs⟩
  unfold purgeForEvent
  rw [List.mem_filter]
  refine ⟨hr, ?_⟩
  rw [hs]
  simp

theorem sentKeysPreserved_purgeForUser (s : List SchedRow) (userId : Nat) :
    sentKeysPreserved s (purgeForUser s userId) := by
  intro r hr hs
  refine ⟨r, ?_, rfl, hs⟩
  unfold purgeForUser
  rw [List.mem_filter]
  refine ⟨hr, ?_⟩
  rw [hs]
  simp

theorem sentKeysPreserved_upsertSchedule (s : List SchedRow) (userId : Nat)
    (event : EventRow) (rule : RuleRow) (t : Int) :
    sentKeysPreserved s (upsertSchedule s userId event rule t) := by
  intro r hr hs
  unfold upsertSchedule
  split
  · by_cases hk : keyOf r == keyOf (mkSchedRow userId event rule t)
    · refine ⟨{ r with
        scheduledAtUtc := (mkSchedRow userId event rule t).scheduledAtUtc
        payload := (mkSchedRow userId event rule t).payload
        status := if r.status = .SENT then r.status else .PENDING }, ?_, ?_, ?_⟩
      · rw [List.mem_map]
        exact ⟨r, hr, by rw [if_pos hk]⟩
      · rfl
      · simp [hs]
    · refine ⟨r, ?_, rfl, hs⟩
      rw [List.mem_map]
      exact ⟨r, hr, by rw [if_neg hk]⟩
  · exact ⟨r, by simp [hr], rfl, hs⟩

theorem sentKeysPreserved_foldl_planJobsStep (event : EventRow) (now : Int)
    (jobs : List (Nat × RuleRow)) :
    ∀ acc : List SchedRow × Nat × Nat,
      sentKeysPreserved acc.1 (jobs.foldl (planJobsStep event now) acc).1 := by
  induction jobs with
  | nil => exact fun acc => sentKeysPreserved_refl _
  | cons job rest ih =>
    intro acc
    rw [List.foldl_cons]
    refine @sentKeysPreserved_trans acc.1 (planJobsStep event now acc job).1
      (rest.foldl (planJobsStep event now) (planJobsStep event now acc job)).1 ?_
      (ih (planJobsStep event now acc job))
    unfold planJobsStep
    split
    · exact sentKeysPreserved_refl _
    · split
      · exact sentKeysPreserved_refl _
      · exact sentKeysPreserved_upsertSchedule _ _ _ _ _

theorem sentKeysPreserved_planForEventAndUsers (db : SchedulingDb) (event : EventRow)
    (explicitUserId : Option Nat) (now : Int) :
    sentKeysPreserved db.schedules (planForEventAndUsers db event explicitUserId now).1 := by
  unfold planForEventAndUsers
  split
  · exact sentKeysPreserved_refl _
  · split
    · exact sentKeysPreserved_refl _
    · exact sentKeysPreserved_foldl_planJobsStep event now
        (jobList db event explicitUserId) (db.schedules, 0, 0)

theorem sentKeysPreserved_planNotificationsForEvent (db : SchedulingDb) (eventId : Nat)
    (now : Int) :
    sentKeysPreserved db.schedules (planNotificationsForEvent db eventId now).1.schedules := by
  unfold planNotificationsForEvent
  split
  · exact sentKeysPreserved_refl _
  · rename_i event _
    exact sentKeysPreserved_trans (sentKeysPreserved_purgeForEvent db.schedules eventId)
      (sentKeysPreserved_planForEventAndUsers
        { db with schedules := purgeForEvent db.schedules eventId } event none now)

theorem sentKeysPreserved_rebuild_foldl (userId : Nat) (now : Int)
    (eventList : List EventRow) :
    ∀ acc : SchedulingDb × Nat × Nat,
      sentKeysPreserved acc.1.schedules
        (eventList.foldl (rebuildStep userId now) acc).1.schedules := by
  induction eventList with
  | nil => exact fun acc => sentKeysPreserved_refl _
  | cons event rest ih =>
    intro acc
    rw [List.foldl_cons]
    exact sentKeysPreserved_trans
      (sentKeysPreserved_planForEventAndUsers acc.1 event (some userId) now)
      (ih (rebuildStep userId now acc event))

theorem sentKeysPreserved_rebuildSchedulesForUser (db : SchedulingDb) (userId : Nat)
    (now : Int) :
    sentKeysPreserved db.schedules (rebuildSchedulesForUser db userId now).1.schedules := by
  unfold rebuildSchedulesForUser
  exact sentKeysPreserved_trans (sentKeysPreserved_purgeForUser db.schedules userId)
    (sentKeysPreserved_rebuild_foldl userId now _
      ({ db with schedules := purgeForUser db.schedules userId }, 0, 0))

theorem sentKeysPreserved_applyPlanOp (db : SchedulingDb) (op : PlanOp) :
    sentKeysPreserved db.schedules (applyPlanOp db op).schedules := by
  cases op with
  | planEvent eventId now => exact sentKeysPreserved_planNotificationsForEvent db eventId now
  | rebuildUser userId now => exact sentKeysPreserved_rebuildSchedulesForUser db userId now

/-- Claim C3: no sequence of planning operations (`planNotificationsForEvent`,
`rebuildSchedulesForUser`) ever changes the status of a SENT schedule row: the
purge steps never delete a SENT row and the upsert-by-dedupeKey preserves SENT
instead of forcing PENDING, so every SENT row survives (under its dedupe key,
still SENT) any sequence of planning calls. -/
theorem sent_never_reverted_by_planning (ops : List PlanOp) :
    ∀ (db : SchedulingDb) (r : SchedRow), r ∈ db.schedules → r.status = .SENT →
      ∃ r' ∈ (applyPlanOps db ops).schedules, keyOf r' = keyOf r ∧ r'.status = .SENT := by
  induction ops with
  | nil => exact fun db r hr hs => ⟨r, hr, rfl, hs⟩
  | cons op rest ih =>
    intro db r hr hs
    obtain ⟨r1, hr1, hk1, hs1⟩ := sentKeysPreserved_applyPlanOp db op r hr hs
    obtain ⟨r2, hr2, hk2, hs2⟩ := ih (applyPlanOp db op) r1 hr1 hs1
    exact ⟨r2, hr2, hk2.trans hk1, hs2⟩

def c3SentRow : SchedRow :=
  { userId := 7, eventId := 1, channel := .EMAIL, triggerType := .ON_START,
    triggerOffsetMinutes := 0, scheduledAtUtc := 100, status := .SENT,
    payload := { eventTitle := "pickup banner", eventType := .PICKUP,
                 trigger := .ON_START, offsetMinutes := 0, channel := .EMAIL } }

def c3Db : SchedulingDb :=
  { events := [], rules := [], userGames := [], schedules := [c3SentRow] }

/-- Witness for claim C3: a concrete SENT row survives a concrete sequence of
planning operations. -/
theorem sent_never_reverted_by_planning_witness :
    ∃ r' ∈ (applyPlanOps c3Db [.planEvent 1 0, .rebuildUser 7 0]).schedules,
      keyOf r' = keyOf c3SentRow ∧ r'.status = .SENT :=
  sent_never_reverted_by_planning [.planEvent 1 0, .rebuildUser 7 0] c3Db c3SentRow
    (by simp [c3Db]) rfl

/-- Claim C9: during planning, any rule whose computed `scheduledAtUtc` is more
than 5 minutes before the current time is skipped (counted as skipped, no
schedule row created or updated for it), as is any rule whose basis date is
null; in particular `computeScheduledAt` of a BEFORE_END rule on an event with
no end date is null. -/
theorem planning_skips_stale_or_null_basis :
    (∀ (event : EventRow) (now : Int) (acc : List SchedRow × Nat × Nat)
      (job : Nat × RuleRow),
      (computeScheduledAt job.2 event now = none ∨
        ∃ t, computeScheduledAt job.2 event now = some t ∧ t < now - 5 * 60 * 1000) →
      planJobsStep event now acc job = (acc.1, acc.2.1, acc.2.2 + 1)) ∧
    (∀ (rule : RuleRow) (event : EventRow) (now : Int),
      rule.trigger = .BEFORE_END → event.endAtUtc = none →
      computeScheduledAt rule event now = none) := by
  constructor
  · intro event now acc job h
    unfold planJobsStep
    rcases h with h | ⟨t, ht, hlt⟩
    · rw [h]
    · rw [ht]
      simp only [if_pos hlt]
  · intro rule event now htr hend
    unfold computeScheduledAt
    rw [htr, hend]
    rfl

def c9Event : EventRow :=
  { id := 3, regionId := 1, type := .EVENT, title := "general", summary := "",
    startAtUtc := some 1000, endAtUtc := none, createdAt := some 0,
    visibility := .PUBLIC, sourceUrl := "", canonicalEventKey := "", confidence := 70 }

def c9Rule : RuleRow :=
  { id := 11, userId := 7, scope := .GLOBAL, regionId := none, eventType := .EVENT,
    trigger := .BEFORE_END, offsetMinutes := some 30, channel := .EMAIL, enabled := true }

/-- Witness for claim C9: a BEFORE_END rule on an event with no end date has a
null basis and is counted as skipped without touching the schedule table. -/
theorem planning_skips_stale_or_null_basis_witness :
    planJobsStep c9Event 5000 ([], 0, 0) (7, c9Rule) = ([], 0, 1) ∧
    computeScheduledAt c9Rule c9Event 5000 = none :=
  ⟨planning_skips_stale_or_null_basis.1 c9Event 5000 ([], 0, 0) (7, c9Rule)
      (Or.inl (planning_skips_stale_or_null_basis.2 c9Rule c9Event 5000 rfl rfl)),
    planning_skips_stale_or_null_basis.2 c9Rule c9Event 5000 rfl rfl⟩

/-- Claim C10: the planning upsert preserves only the SENT status: an existing
row with the same dedupe key and any other status is reset to PENDING with its
`scheduledAtUtc` and payload overwritten; and the purge step does not delete
PROCESSING rows. -/
theorem upsert_resets_non_sent_and_purge_keeps_processing :
    (∀ (schedules : List SchedRow) (userId : Nat) (event : EventRow) (rule : RuleRow)
      (t : Int) (old : SchedRow), old ∈ schedules →
      keyOf old = keyOf (mkSchedRow userId event rule t) → old.status ≠ .SENT →
      { old with scheduledAtUtc := t, payload := mkSchedPayload event rule,
                 status := .PENDING } ∈ upsertSchedule schedules userId event rule t) ∧
    (∀ (schedules : List SchedRow) (eventId : Nat) (r : SchedRow), r ∈ schedules →
      r.status = .PROCESSING → r ∈ purgeForEvent schedules eventId) := by
  constructor
  · intro s userId event rule t old hmem hkey hst
    unfold upsertSchedule
    have hany : (s.any fun r => keyOf r == keyOf (mkSchedRow userId event rule t)) = true := by
      rw [List.any_eq_true]
      exact ⟨old, hmem, by simp [hkey]⟩
    rw [if_pos hany, List.mem_map]
    refine ⟨old, hmem, ?_⟩
    rw [if_pos (by simp [hkey])]
    rw [if_neg hst]
    rfl
  · intro s eventId r hmem hst
    unfold purgeForEvent
    rw [List.mem_filter]
    refine ⟨hmem, ?_⟩
    rw [hst]
    simp

def c10Event : EventRow :=
  { id := 2, regionId := 1, type := .PICKUP, title := "pickup", summary := "",
    startAtUtc := some 9000, endAtUtc := none, createdAt := some 0,
    visibility := .PUBLIC, sourceUrl := "", canonicalEventKey := "", confidence := 70 }

def c10Rule : RuleRow :=
  { id := 5, userId := 4, scope := .GLOBAL, regionId := none, eventType := .PICKUP,
    trigger := .ON_START, offsetMinutes := none, channel := .WEBPUSH, enabled := true }

def c10Processing : SchedRow :=
  { userId := 4, eventId := 2, channel := .WEBPUSH, triggerType := .ON_START,
    triggerOffsetMinutes := 0, scheduledAtUtc := 8000, status := .PROCESSING,
    payload := { eventTitle := "old", eventType := .PICKUP, trigger := .ON_START,
                 offsetMinutes := 0, channel := .WEBPUSH } }

/-- Witness for claim C10: a concrete PROCESSING row survives the purge and is
reset to PENDING (with overwritten time and payload) by the upsert. -/
theorem upsert_resets_non_sent_and_purge_keeps_processing_witness :
    ({ c10Processing with scheduledAtUtc := 9000,
                          payload := mkSchedPayload c10Event c10Rule, status := .PENDING } ∈
      upsertSchedule [c10Processing] 4 c10Event c10Rule 9000) ∧
    c10Processing ∈ purgeForEvent [c10Processing] 2 :=
  ⟨upsert_resets_non_sent_and_purge_keeps_processing.1 [c10Processing] 4 c10Event
      c10Rule 9000 c10Processing (by simp) rfl (by simp [c10Processing]),
    upsert_resets_non_sent_and_purge_keeps_processing.2 [c10Processing] 2 c10Processing
      (by simp) rfl⟩

def c4Event : EventRow :=
  { id := 1, regionId := 1, type := .EVENT, title := "needs review", summary := "",
    startAtUtc := none, endAtUtc := none, createdAt := some 0,
    visibility := .NEED_REVIEW, sourceUrl := "", canonicalEventKey := "", confidence := 45 }

def c4Pending : SchedRow :=
  { userId := 9, eventId := 1, channel := .EMAIL, triggerType := .ON_PUBLISH,
    triggerOffsetMinutes := 0, scheduledAtUtc := 10, status := .PENDING,
    payload := { eventTitle := "needs review", eventType := .EVENT,
                 trigger := .ON_PUBLISH, offsetMinutes := 0, channel := .EMAIL } }

def c4Db : SchedulingDb :=
  { events := [c4Event], rules := [], userGames := [], schedules := [c4Pending] }

/-- Counterexample to claim C4 as stated: for an existing event whose visibility
is not PUBLIC, `planNotificationsForEvent` is not a no-op on schedule rows — it
deletes the PENDING rows of that event. -/
theorem planNotificationsForEvent_non_public_not_noop :
    getEvent c4Db 1 = some c4Event ∧ c4Event.visibility ≠ .PUBLIC ∧
    (planNotificationsForEvent c4Db 1 0).1.schedules = [] ∧
    c4Db.schedules = [c4Pending] := by
  refine ⟨by decide, by decide, ?_, rfl⟩
  decide

/-- Claim C4, amended: for an existing non-PUBLIC event,
`planNotificationsForEvent` creates and modifies no schedule rows and plans
nothing, but it does first delete the PENDING/FAILED/CANCELED rows of that
event (leaving exactly the purged table behind). -/
theorem planNotificationsForEvent_non_public_only_purges (db : SchedulingDb)
    (eventId : Nat) (now : Int) (event : EventRow)
    (hfind : getEvent db eventId = some event) (hvis : event.visibility ≠ .PUBLIC) :
    planNotificationsForEvent db eventId now =
      ({ db with schedules := purgeForEvent db.schedules eventId }, 0, 0) := by
  unfold planNotificationsForEvent
  rw [hfind]
  dsimp only
  unfold planForEventAndUsers
  rw [if_pos hvis]

/-- Witness for the amended claim C4. -/
theorem planNotificationsForEvent_non_public_only_purges_witness :
    planNotificationsForEvent c4Db 1 0 =
      ({ c4Db with schedules := purgeForEvent c4Db.schedules 1 }, 0, 0) :=
  planNotificationsForEvent_non_public_only_purges c4Db 1 0 c4Event (by decide)
    (by decide)

/-! ### Text utilities (`ingest.ts`).
JS string lengths and slices count UTF-16 code units; the model counts code
points, which agrees on all characters of the basic multilingual plane (all
keyword and date text handled by this pipeline). -/

/-- The JS regexp `\s` character class (also the set trimmed by `trim()`). -/
def isJsWs (c : Char) : Bool :=
  c = ' ' || c = '\t' || c = '\n' || c = '\r' || c.toNat = 11 || c.toNat = 12 ||
    c.toNat = 0xa0 || c.toNat = 0x1680 || (0x2000 ≤ c.toNat && c.toNat ≤ 0x200a) ||
    c.toNat = 0x2028 || c.toNat = 0x2029 || c.toNat = 0x202f || c.toNat = 0x205f ||
    c.toNat = 0x3000 || c.toNat = 0xfeff

/-- `replace(/\s+/g, " ")`: collapse every whitespace run to a single space.
The flag records whether the previous character was part of a run. -/
def collapseWsAux : Bool → List Char → List Char
  | _, [] => []
  | prevWs, c :: rest =>
    if isJsWs c then
      if prevWs then collapseWsAux true rest else ' ' :: collapseWsAux true rest
    else c :: collapseWsAux false rest

def trimChars (l : List Char) : List Char :=
  ((l.dropWhile isJsWs).reverse.dropWhile isJsWs).reverse

/-- `normalizeText`: `input.replace(/\s+/g, " ").trim()`. -/
def normalizeText (input : String) : String :=
  ⟨trimChars (collapseWsAux false input.data)⟩

/-- `summarize(input, maxLength)`: normalized text, truncated to
`maxLength - 1` code units plus `"..."` when longer than `maxLength`. -/
def summarize (input : String) (maxLength : Nat) : String :=
  let normalized := normalizeText input
  if normalized.length ≤ maxLength then normalized
  else ⟨normalized.data.take (maxLength - 1)⟩ ++ "..."

/-- JS `toLowerCase`, restricted to the ASCII range (the only cased characters
in the keyword lists). -/
def toLowerStr (s : String) : String := ⟨s.data.map Char.toLower⟩

def startsWithChars : List Char → List Char → Bool
  | _, [] => true
  | [], _ :: _ => false
  | c :: cs, n :: ns => c = n && startsWithChars cs ns

/-- JS `String.prototype.includes`: contiguous substring test. -/
def containsSubAux (needle : List Char) : List Char → Bool
  | [] => needle.isEmpty
  | c :: rest => startsWithChars (c :: rest) needle || containsSubAux needle rest

def stringIncludes (hay needle : String) : Bool := containsSubAux needle.data hay.data

def pickupKeywords : List String :=
  ["pickup", "pick-up", "rate up", "가챠", "픽업", "recruitment", "warp"]

def updateKeywords : List String :=
  ["update", "patch", "패치", "업데이트", "version", "점검 후 업데이트"]

def maintenanceKeywords : List String :=
  ["maintenance", "점검", "maintenance notice", "긴급 점검"]

def campaignKeywords : List String :=
  ["campaign", "캠페인", "보너스", "2x", "double drop"]

structure EventTypeScore where
  type : EventType
  score : Nat
deriving DecidableEq, Repr

/-- `detectEventType(text)`: keyword membership on the lowercased text, checked
in fixed priority order (scores in hundredths). -/
def detectEventType (text : String) : EventTypeScore :=
  let source := toLowerStr text
  if pickupKeywords.any (fun word => stringIncludes source word) then
    { type := .PICKUP, score := 25 }
  else if maintenanceKeywords.any (fun word => stringIncludes source word) then
    { type := .MAINTENANCE, score := 25 }
  else if updateKeywords.any (fun word => stringIncludes source word) then
    { type := .UPDATE, score := 22 }
  else if campaignKeywords.any (fun word => stringIncludes source word) then
    { type := .CAMPAIGN, score := 20 }
  else
    { type := .EVENT, score := 10 }

/-! ### Civil-calendar arithmetic (the `new Date(...)` / `toISOString()` pair).
Days-from-civil and civil-from-days follow the standard proleptic-Gregorian
era decomposition used by every mainstream date library. -/

def daysFromCivil (y : Int) (m d : Nat) : Int :=
  let y' : Int := if m ≤ 2 then y - 1 else y
  let era : Int := (if 0 ≤ y' then y' else y' - 399) / 400
  let yoe : Int := y' - era * 400
  let mp : Int := if 2 < m then (m : Int) - 3 else (m : Int) + 9
  let doy : Int := (153 * mp + 2) / 5 + (d : Int) - 1
  let doe : Int := yoe * 365 + yoe / 4 - yoe / 100 + doy
  era * 146097 + doe - 719468

def civilFromDays (z : Int) : Int × Nat × Nat :=
  let z' : Int := z + 719468
  let era : Int := (if 0 ≤ z' then z' else z' - 146096) / 146097
  let doe : Nat := (z' - era * 146097).toNat
  let yoe : Nat := (doe - doe / 1460 + doe / 36524 - doe / 146096) / 365
  let y : Int := (yoe : Int) + era * 400
  let doy : Nat := doe - (365 * yoe + yoe / 4 - yoe / 100)
  let mp : Nat := (5 * doy + 2) / 153
  let d : Nat := doy - (153 * mp + 2) / 5 + 1
  let m : Nat := if mp < 10 then mp + 3 else mp - 9
  (if m ≤ 2 then y + 1 else y, m, d)

def isLeapYear (y : Nat) : Bool :=
  (y % 4 = 0 && y % 100 ≠ 0) || y % 400 = 0

def daysInMonth (y : Nat) (m : Nat) : Nat :=
  if m = 2 then (if isLeapYear y then 29 else 28)
  else if m = 4 || m = 6 || m = 9 || m = 11 then 30
  else 31

def padNat (width n : Nat) : List Char :=
  List.replicate (width - (natDigits n).length) '0' ++ natDigits n

/-- `Date.prototype.toISOString()` of an epoch-millisecond instant
(`YYYY-MM-DDTHH:MM:SS.sssZ`, expanded ± six-digit years outside 0..9999). -/
def isoOfEpochMs (ms : Int) : String :=
  let day : Int := ms.fdiv 86400000
  let rem : Nat := (ms.emod 86400000).toNat
  let c := civilFromDays day
  let yearStr : List Char :=
    if 0 ≤ c.1 ∧ c.1 ≤ 9999 then padNat 4 c.1.toNat
    else if c.1 < 0 then '-' :: padNat 6 (-c.1).toNat
    else '+' :: padNat 6 c.1.toNat
  ⟨yearStr ++ '-' :: padNat 2 c.2.1 ++ '-' :: padNat 2 c.2.2 ++
    'T' :: padNat 2 (rem / 3600000) ++ ':' :: padNat 2 (rem % 3600000 / 60000) ++
    ':' :: padNat 2 (rem % 60000 / 1000) ++ '.' :: padNat 3 (rem % 1000) ++ ['Z']⟩

/-- `timezoneOffset(timezone)`: the fixed per-name offset map (`Asia/Seoul` and
`Asia/Tokyo` map to the string `"+09:00"`, `UTC` and every unknown name to
`"+00:00"`), expressed directly in minutes as the `Date` parser consumes it. -/
def timezoneOffsetMinutes (timezone : String) : Int :=
  if timezone = "Asia/Seoul" then 540
  else if timezone = "Asia/Tokyo" then 540
  else if timezone = "UTC" then 0
  else 0

structure DateParts where
  year : Nat
  month : Nat
  day : Nat
  hour : Nat
  minute : Nat
  timezone : String
deriving DecidableEq, Repr

/-- The component bounds under which V8 accepts the zero-padded ISO string
`YYYY-MM-DDTHH:MM:00±hh:mm` built by `toUtcIso` (month 1..12, real calendar
day, hour 0..23 — or 24:00 exactly — minute 0..59; a year above 9999 produces
a five-digit year field, which the ISO parser rejects). -/
def isValidIsoParts (year month day hour minute : Nat) : Bool :=
  year ≤ 9999 && 1 ≤ month && month ≤ 12 && 1 ≤ day && day ≤ daysInMonth year month &&
    ((hour ≤ 23 && minute ≤ 59) || (hour = 24 && minute = 0))

/-- `toUtcIso(parts)`: build the offset ISO string, parse it with `new Date`,
and return `toISOString()` of the result (null for an invalid date). -/
def toUtcIso (parts : DateParts) : Option String :=
  if isValidIsoParts parts.year parts.month parts.day parts.hour parts.minute then
    some (isoOfEpochMs (daysFromCivil parts.year parts.month parts.day * 86400000 +
      ((parts.hour : Int) * 60 + (parts.minute : Int)) * 60000 -
      timezoneOffsetMinutes parts.timezone * 60000))
  else none

/-! ### The three date regexps of `extractDateRange`, as a backtracking
matcher.  A parser maps a character list to the ordered list of alternative
`(result, rest)` outcomes, longest-preferred alternatives first — exactly the
backtracking order of the JS regexp engine — and matching scans for the
leftmost position with at least one outcome. -/

def NParser (α : Type) : Type := List Char → List (α × List Char)

def npPure {α : Type} (a : α) : NParser α := fun s => [(a, s)]

def npBind {α β : Type} (p : NParser α) (f : α → NParser β) : NParser β :=
  fun s => (p s).flatMap (fun r => f r.1 r.2)

instance : Monad NParser where
  pure := npPure
  bind := npBind

/-- One `\d`. -/
def npDigit : NParser Nat := fun s =>
  match s with
  | c :: rest => if c.isDigit then [(c.toNat - 48, rest)] else []
  | [] => []

def npDigitsAcc : Nat → Nat → NParser Nat
  | 0, acc => npPure acc
  | k + 1, acc => npBind npDigit (fun d => npDigitsAcc k (acc * 10 + d))

/-- Exactly `k` digits (`\d{k}`), as their numeric value. -/
def npExactDigits (k : Nat) : NParser Nat := npDigitsAcc k 0

/-- `\d{1,2}` (greedy: two digits preferred over one). -/
def npD12 : NParser Nat := fun s => npExactDigits 2 s ++ npExactDigits 1 s

def npCharClass (p : Char → Bool) : NParser Char := fun s =>
  match s with
  | c :: rest => if p c then [(c, rest)] else []
  | [] => []

/-- The date separator class: dot, slash or dash. -/
def npDateSep : NParser Char := npCharClass (fun c => c = '.' || c = '/' || c = '-')

/-- `[~\-–]`. -/
def npTilde : NParser Char := npCharClass (fun c => c = '~' || c = '-' || c = '–')

def npColonChar : NParser Char := npCharClass (fun c => c = ':')

/-- `\s*` (greedy: longest run first). -/
def npWsStar : NParser Unit
  | [] => [((), [])]
  | c :: rest =>
    if isJsWs c then npWsStar rest ++ [((), c :: rest)] else [((), c :: rest)]

structure DateTimeCapture where
  year : Nat
  month : Nat
  day : Nat
  hour : Nat
  minute : Nat
deriving DecidableEq, Repr

/-- `(\d{4}) sep (\d{1,2}) sep (\d{1,2}) \s* (\d{1,2}):(\d{2})` with `sep` the
date separator class. -/
def npDateTime : NParser DateTimeCapture := do
  let y ← npExactDigits 4
  let _ ← npDateSep
  let mo ← npD12
  let _ ← npDateSep
  let d ← npD12
  let _ ← npWsStar
  let h ← npD12
  let _ ← npColonChar
  let mi ← npExactDigits 2
  pure { year := y, month := mo, day := d, hour := h, minute := mi }

/-- `fullRangePattern`: date-time `\s*[~\-–]\s*` date-time. -/
def npFullRange : NParser (DateTimeCapture × DateTimeCapture) := do
  let a ← npDateTime
  let _ ← npWsStar
  let _ ← npTilde
  let _ ← npWsStar
  let b ← npDateTime
  pure (a, b)

/-- `sameDateRangePattern`: date-time `\s*[~\-–]\s*` `(\d{1,2}):(\d{2})`. -/
def npSameDayRange : NParser (DateTimeCapture × Nat × Nat) := do
  let a ← npDateTime
  let _ ← npWsStar
  let _ ← npTilde
  let _ ← npWsStar
  let h ← npD12
  let _ ← npColonChar
  let mi ← npExactDigits 2
  pure (a, h, mi)

/-- Leftmost match (`String.prototype.match` without the global flag). -/
def scanFirst {α : Type} (p : NParser α) : List Char → Option α
  | [] =>
    match p [] with
    | (a, _) :: _ => some a
    | [] => none
  | c :: rest =>
    match p (c :: rest) with
    | (a, _) :: _ => some a
    | [] => scanFirst p rest

structure DateRange where
  startAtUtc : Option String
  endAtUtc : Option String
  score : Nat
deriving DecidableEq, Repr

def captureToParts (a : DateTimeCapture) (timezone : String) : DateParts :=
  { year := a.year, month := a.month, day := a.day, hour := a.hour,
    minute := a.minute, timezone := timezone }

/-- `extractDateRange(text, timezone)` (scores in hundredths). -/
def extractDateRange (text timezone : String) : DateRange :=
  match scanFirst npFullRange (normalizeText text).data with
  | some (a, b) =>
    let startAtUtc := toUtcIso (captureToParts a timezone)
    let endAtUtc := toUtcIso (captureToParts b timezone)
    { startAtUtc := startAtUtc, endAtUtc := endAtUtc,
      score := if startAtUtc.isSome && endAtUtc.isSome then 35 else 15 }
  | none =>
    match scanFirst npSameDayRange (normalizeText text).data with
    | some (a, h2, mi2) =>
      let startAtUtc := toUtcIso (captureToParts a timezone)
      let endAtUtc := toUtcIso { year := a.year, month := a.month, day := a.day,
                                 hour := h2, minute := mi2, timezone := timezone }
      { startAtUtc := startAtUtc, endAtUtc := endAtUtc,
        score := if startAtUtc.isSome && endAtUtc.isSome then 30 else 10 }
    | none =>
      match scanFirst npDateTime (normalizeText text).data with
      | some a =>
        let date := toUtcIso (captureToParts a timezone)
        { startAtUtc := date, endAtUtc := none,
          score := if date.isSome then 15 else 5 }
      | none => { startAtUtc := none, endAtUtc := none, score := 0 }

/-! ### Parser/Normalizer (`parseRawNoticeToEventDraft`) -/

structure DraftParams where
  title : String
  contentText : String
  timezone : String
deriving DecidableEq, Repr

structure ParsedEventDraft where
  type : EventType
  title : String
  summary : String
  startAtUtc : Option String
  endAtUtc : Option String
  confidence : Nat
  visibility : Visibility
deriving DecidableEq, Repr

/-- `toVisibility(confidence)`: PUBLIC at the 0.65 threshold. -/
def toVisibility (confidence : Nat) : Visibility :=
  if 65 ≤ confidence then .PUBLIC else .NEED_REVIEW

/-- `parseRawNoticeToEventDraft({title, contentText, timezone})`.  The summary
source is `contentText || title` (the title when the content is empty). -/
def parseRawNoticeToEventDraft (params : DraftParams) : ParsedEventDraft :=
  let merged := params.title ++ "\n" ++ params.contentText
  let ts := detectEventType merged
  let dateRange := extractDateRange merged params.timezone
  let summary :=
    summarize (if params.contentText = "" then params.title else params.contentText) 220
  let confidence :=
    min 100 (35 + ts.score + dateRange.score + (if 20 < summary.length then 10 else 0))
  { type := ts.type
    title := normalizeText params.title
    summary := summary
    startAtUtc := dateRange.startAtUtc
    endAtUtc := dateRange.endAtUtc
    confidence := confidence
    visibility := toVisibility confidence }

theorem toVisibility_public_iff (c : Nat) : toVisibility c = .PUBLIC ↔ 65 ≤ c := by
  unfold toVisibility
  split
  · rename_i h
    simp [h]
  · rename_i h
    simp [h]

/-- Claim C1: for every input, `parseRawNoticeToEventDraft` computes
`confidence = min(1, 0.35 + typeScore + dateRangeScore + (0.1 if the summary is
longer than 20 characters else 0))` (here in exact hundredths) and sets
visibility to PUBLIC exactly when `confidence >= 0.65`. -/
theorem parseRawNoticeToEventDraft_confidence_visibility (params : DraftParams) :
    (parseRawNoticeToEventDraft params).confidence =
      min 100 (35 + (detectEventType (params.title ++ "\n" ++ params.contentText)).score +
        (extractDateRange (params.title ++ "\n" ++ params.contentText) params.timezone).score +
        (if 20 < (summarize (if params.contentText = "" then params.title
            else params.contentText) 220).length then 10 else 0)) ∧
    ((parseRawNoticeToEventDraft params).visibility = .PUBLIC ↔
      65 ≤ (parseRawNoticeToEventDraft params).confidence) := by
  unfold parseRawNoticeToEventDraft
  dsimp only
  exact ⟨rfl, toVisibility_public_iff _⟩

theorem detectEventType_score_cases (text : String) :
    (detectEventType text).score = 25 ∨ (detectEventType text).score = 22 ∨
      (detectEventType text).score = 20 ∨ (detectEventType text).score = 10 := by
  unfold detectEventType
  dsimp only
  split
  · exact Or.inl rfl
  split
  · exact Or.inl rfl
  split
  · exact Or.inr (Or.inl rfl)
  split
  · exact Or.inr (Or.inr (Or.inl rfl))
  · exact Or.inr (Or.inr (Or.inr rfl))

def c2Params : DraftParams :=
  { title := "Pickup", contentText := "pickup banner coming soon stay tuned",
    timezone := "UTC" }

set_option maxHeartbeats 4000000 in
/-- Counterexample to claim C2 as stated: a PICKUP keyword match with no
extractable date (dateRangeScore = 0) and a summary longer than 20 characters
reaches confidence 0.70 >= 0.65 and is published, not NEED_REVIEW. -/
theorem keyword_without_date_can_be_public :
    (extractDateRange ("Pickup" ++ "\n" ++ "pickup banner coming soon stay tuned")
        "UTC").score = 0 ∧
    (detectEventType ("Pickup" ++ "\n" ++ "pickup banner coming soon stay tuned")).type =
      .PICKUP ∧
    (parseRawNoticeToEventDraft c2Params).confidence = 70 ∧
    (parseRawNoticeToEventDraft c2Params).visibility = .PUBLIC := by
  refine ⟨by decide, by decide, by decide, by decide⟩

/-- Claim C2, amended: with dateRangeScore = 0, the draft is PUBLIC exactly
when a keyword matched (typeScore at least 0.2, i.e. any non-default category)
and the summary is longer than 20 characters; in every other case — no keyword
hit, or summary of at most 20 characters — it is NEED_REVIEW. -/
theorem keyword_no_date_visibility (params : DraftParams)
    (hdate : (extractDateRange (params.title ++ "\n" ++ params.contentText)
      params.timezone).score = 0) :
    ((parseRawNoticeToEventDraft params).visibility = .PUBLIC ↔
      (20 ≤ (detectEventType (params.title ++ "\n" ++ params.contentText)).score ∧
        20 < (summarize (if params.contentText = "" then params.title
          else params.contentText) 220).length)) := by
  unfold parseRawNoticeToEventDraft
  dsimp only
  rw [hdate, toVisibility_public_iff]
  rcases detectEventType_score_cases (params.title ++ "\n" ++ params.contentText) with
    h | h | h | h <;>
    rw [h] <;>
    by_cases hb : 20 < (summarize (if params.contentText = "" then params.title
      else params.contentText) 220).length
  · rw [if_pos hb]; omega
  · rw [if_neg hb]; omega
  · rw [if_pos hb]; omega
  · rw [if_neg hb]; omega
  · rw [if_pos hb]; omega
  · rw [if_neg hb]; omega
  · rw [if_pos hb]; omega
  · rw [if_neg hb]; omega

def c2wParams : DraftParams :=
  { title := "Pickup", contentText := "gacha soon", timezone := "UTC" }

set_option maxHeartbeats 4000000 in
/-- Witness for the amended claim C2: a pickup keyword with no date and a short
summary stays NEED_REVIEW (both sides of the equivalence are false). -/
theorem keyword_no_date_visibility_witness :
    ((parseRawNoticeToEventDraft c2wParams).visibility = .PUBLIC ↔
      (20 ≤ (detectEventType (c2wParams.title ++ "\n" ++ c2wParams.contentText)).score ∧
        20 < (summarize (if c2wParams.contentText = "" then c2wParams.title
          else c2wParams.contentText) 220).length)) :=
  keyword_no_date_visibility c2wParams (by decide)

/-- Claim C7: whenever the full `"YYYY/MM/DD HH:MM ~ YYYY/MM/DD HH:MM"` range
pattern matches and both endpoints resolve, `extractDateRange` returns both
endpoints converted exactly to UTC by the fixed per-timezone offset, with
score 0.35. -/
theorem extractDateRange_full_range (text timezone : String)
    (a b : DateTimeCapture) (s1 s2 : String)
    (hmatch : scanFirst npFullRange (normalizeText text).data = some (a, b))
    (h1 : toUtcIso (captureToParts a timezone) = some s1)
    (h2 : toUtcIso (captureToParts b timezone) = some s2) :
    extractDateRange text timezone =
      { startAtUtc := some s1, endAtUtc := some s2, score := 35 } := by
  unfold extractDateRange
  rw [hmatch]
  dsimp only
  rw [h1, h2]
  rfl

set_option maxHeartbeats 4000000 in
/-- Witness for claim C7: the spec example in Asia/Seoul (+09:00). -/
theorem extractDateRange_full_range_witness :
    extractDateRange "2026/03/01 10:00 ~ 2026/03/08 11:30" "Asia/Seoul" =
      { startAtUtc := some "2026-03-01T01:00:00.000Z",
        endAtUtc := some "2026-03-08T02:30:00.000Z", score := 35 } :=
  extractDateRange_full_range "2026/03/01 10:00 ~ 2026/03/08 11:30" "Asia/Seoul"
    { year := 2026, month := 3, day := 1, hour := 10, minute := 0 }
    { year := 2026, month := 3, day := 8, hour := 11, minute := 30 }
    "2026-03-01T01:00:00.000Z" "2026-03-08T02:30:00.000Z"
    (by decide) (by decide) (by decide)

/-! ### Idempotence of planning (claim C5): lookup-by-dedupe-key machinery -/

def keysOf (s : List SchedRow) : List String := s.map keyOf

/-- First row with the given dedupe key (the row the unique constraint pins). -/
def lookupK (k : String) : List SchedRow → Option SchedRow
  | [] => none
  | r :: rest => if keyOf r = k then some r else lookupK k rest

theorem lookupK_eq_none_of_not_mem_keys {k : String} :
    ∀ {s : List SchedRow}, k ∉ keysOf s → lookupK k s = none := by
  intro s
  induction s with
  | nil => intro _; rfl
  | cons r rest ih =>
    intro hk
    unfold lookupK
    rw [if_neg]
    · exact ih (fun hmem => hk (by simp [keysOf]; right; simpa [keysOf] using hmem))
    · intro he
      exact hk (by simp [keysOf, he])

theorem lookupK_nil (k : String) : lookupK k [] = none := rfl

theorem lookupK_cons (k : String) (x : SchedRow) (rest : List SchedRow) :
    lookupK k (x :: rest) = if keyOf x = k then some x else lookupK k rest := rfl

theorem mem_keysOf_iff {k : String} {s : List SchedRow} :
    k ∈ keysOf s ↔ ∃ r ∈ s, keyOf r = k := by
  simp [keysOf, List.mem_map]

theorem lookupK_mem {k : String} :
    ∀ {s : List SchedRow} {r : SchedRow}, lookupK k s = some r → r ∈ s ∧ keyOf r = k := by
  intro s
  induction s with
  | nil => intro r h; exact absurd h (by simp [lookupK])
  | cons x rest ih =>
    intro r h
    unfold lookupK at h
    split at h
    · rename_i he
      cases h
      exact ⟨by simp, he⟩
    · obtain ⟨hmem, hk⟩ := ih h
      exact ⟨by simp [hmem], hk⟩

theorem mem_iff_lookupK {s : List SchedRow} (hN : (keysOf s).Nodup) (r : SchedRow) :
    r ∈ s ↔ lookupK (keyOf r) s = some r := by
  constructor
  · intro hmem
    induction s with
    | nil => cases hmem
    | cons x rest ih =>
      unfold lookupK
      rcases List.mem_cons.mp hmem with he | hmem'
      · subst he
        rw [if_pos rfl]
      · split
        · rename_i hx
          exfalso
          have : keyOf r ∈ keysOf rest := mem_keysOf_iff.mpr ⟨r, hmem', rfl⟩
          have := (List.nodup_cons.mp hN).1
          rw [hx] at this
          exact this ‹keyOf r ∈ keysOf rest›
        · exact ih (List.nodup_cons.mp hN).2 hmem'
  · intro h
    exact (lookupK_mem h).1

theorem lookupK_filter {k : String} (pb : SchedRow → Bool) :
    ∀ {s : List SchedRow}, (keysOf s).Nodup →
      lookupK k (s.filter pb) =
        (match lookupK k s with
         | none => none
         | some r => if pb r then some r else none) := by
  intro s
  induction s with
  | nil => intro _; rfl
  | cons x rest ih =>
    intro hN
    have hN' := (List.nodup_cons.mp hN).2
    have hnotin := (List.nodup_cons.mp hN).1
    by_cases hx : keyOf x = k
    · rw [lookupK_cons, if_pos hx]
      by_cases hp : pb x
      · rw [List.filter_cons_of_pos hp, lookupK_cons, if_pos hx]
        simp [hp]
      · rw [List.filter_cons_of_neg (by simpa using hp)]
        have hnone : lookupK k (rest.filter pb) = none := by
          apply lookupK_eq_none_of_not_mem_keys
          intro hmem
          rcases mem_keysOf_iff.mp hmem with ⟨r, hr, hkr⟩
          have hr' : r ∈ rest := (List.mem_filter.mp hr).1
          exact hnotin (by rw [hx]; exact mem_keysOf_iff.mpr ⟨r, hr', hkr⟩)
        rw [hnone]
        simp [hp]
    · rw [lookupK_cons, if_neg hx]
      by_cases hp : pb x
      · rw [List.filter_cons_of_pos hp, lookupK_cons, if_neg hx, ih hN']
      · rw [List.filter_cons_of_neg (by simpa using hp), ih hN']

/-- The effect of the `ON CONFLICT` upsert on the row stored under a key:
a fresh insert when none exists, otherwise the status-preserving overwrite. -/
def mergeRow : Option SchedRow → SchedRow → SchedRow
  | none, n => n
  | some r, n =>
    { r with scheduledAtUtc := n.scheduledAtUtc, payload := n.payload,
             status := if r.status = .SENT then r.status else .PENDING }

def updFn (n : SchedRow) (r : SchedRow) : SchedRow :=
  if keyOf r == keyOf n then
    { r with scheduledAtUtc := n.scheduledAtUtc, payload := n.payload,
             status := if r.status = .SENT then r.status else .PENDING }
  else r

theorem upsertSchedule_eq (s : List SchedRow) (u : Nat) (e : EventRow) (rl : RuleRow)
    (t : Int) :
    upsertSchedule s u e rl t =
      if s.any (fun r => keyOf r == keyOf (mkSchedRow u e rl t)) then
        s.map (updFn (mkSchedRow u e rl t))
      else s ++ [mkSchedRow u e rl t] := rfl

theorem keyOf_updFn (n r : SchedRow) : keyOf (updFn n r) = keyOf r := by
  unfold updFn
  split <;> rfl

theorem keysOf_upsert (s : List SchedRow) (u : Nat) (e : EventRow) (rl : RuleRow)
    (t : Int) :
    keysOf (upsertSchedule s u e rl t) =
      if s.any (fun r => keyOf r == keyOf (mkSchedRow u e rl t)) then keysOf s
      else keysOf s ++ [keyOf (mkSchedRow u e rl t)] := by
  rw [upsertSchedule_eq]
  split
  · unfold keysOf
    rw [List.map_map]
    exact List.map_congr_left (fun r _ => keyOf_updFn _ r)
  · unfold keysOf
    rw [List.map_append]
    rfl

theorem lookupK_some_of_mem_keys {k : String} :
    ∀ {s : List SchedRow}, k ∈ keysOf s → ∃ r, lookupK k s = some r := by
  intro s
  induction s with
  | nil => intro h; exact absurd h (by simp [keysOf])
  | cons x rest ih =>
    intro h
    rw [lookupK_cons]
    by_cases hx : keyOf x = k
    · exact ⟨x, by rw [if_pos hx]⟩
    · rw [if_neg hx]
      apply ih
      rcases mem_keysOf_iff.mp h with ⟨r, hr, hkr⟩
      rcases List.mem_cons.mp hr with he | hmem
      · subst he; exact absurd hkr hx
      · exact mem_keysOf_iff.mpr ⟨r, hmem, hkr⟩

theorem nodup_keys_upsert {s : List SchedRow} (hN : (keysOf s).Nodup) (u : Nat)
    (e : EventRow) (rl : RuleRow) (t : Int) :
    (keysOf (upsertSchedule s u e rl t)).Nodup := by
  rw [keysOf_upsert]
  split
  · exact hN
  · rename_i hany
    rw [List.nodup_append]
    refine ⟨hN, List.nodup_singleton _, ?_⟩
    intro a ha hb
    rcases mem_keysOf_iff.mp ha with ⟨r, hr, hkr⟩
    have hane : a = keyOf (mkSchedRow u e rl t) := by simpa using hb
    have hall : ∀ x ∈ s, ¬keyOf x = keyOf (mkSchedRow u e rl t) := by simpa using hany
    exact hall r hr (by rw [hkr, hane])

theorem lookupK_append (k : String) (s1 s2 : List SchedRow) :
    lookupK k (s1 ++ s2) =
      (match lookupK k s1 with
       | some r => some r
       | none => lookupK k s2) := by
  induction s1 with
  | nil => rfl
  | cons x rest ih =>
    rw [List.cons_append, lookupK_cons, lookupK_cons]
    by_cases hx : keyOf x = k
    · rw [if_pos hx, if_pos hx]
    · rw [if_neg hx, if_neg hx, ih]

theorem lookupK_map_updFn {k : String} (n : SchedRow) :
    ∀ s : List SchedRow,
      lookupK k (s.map (updFn n)) =
        (match lookupK k s with
         | some r => some (updFn n r)
         | none => none) := by
  intro s
  induction s with
  | nil => rfl
  | cons x rest ih =>
    rw [List.map_cons, lookupK_cons, lookupK_cons, keyOf_updFn]
    by_cases hx : keyOf x = k
    · rw [if_pos hx, if_pos hx]
    · rw [if_neg hx, if_neg hx, ih]

theorem lookupK_upsert {k : String} {s : List SchedRow}
    (u : Nat) (e : EventRow) (rl : RuleRow) (t : Int) :
    lookupK k (upsertSchedule s u e rl t) =
      if keyOf (mkSchedRow u e rl t) = k then
        some (mergeRow (lookupK k s) (mkSchedRow u e rl t))
      else lookupK k s := by
  rw [upsertSchedule_eq]
  split
  · rename_i hany
    rw [lookupK_map_updFn]
    by_cases hk : keyOf (mkSchedRow u e rl t) = k
    · rw [if_pos hk]
      rcases List.any_eq_true.mp hany with ⟨r0, hr0, hbeq⟩
      have hk0 : keyOf r0 = k := by
        rw [← hk]
        exact beq_iff_eq.mp hbeq
      obtain ⟨r, hr⟩ := lookupK_some_of_mem_keys (mem_keysOf_iff.mpr ⟨r0, hr0, hk0⟩)
      rw [hr]
      have hkr : keyOf r = k := (lookupK_mem hr).2
      have hbe : (keyOf r == keyOf (mkSchedRow u e rl t)) = true := by
        rw [hkr, hk]
        simp
      simp [updFn, mergeRow, hbe]
    · rw [if_neg hk]
      cases hl : lookupK k s with
      | none => rfl
      | some r =>
        have hkr : keyOf r = k := (lookupK_mem hl).2
        have hne : keyOf r ≠ keyOf (mkSchedRow u e rl t) := by
          rw [hkr]
          exact fun he => hk he.symm
        simp [updFn, hne]
  · rename_i hany
    rw [lookupK_append]
    have hnone : ∀ x ∈ s, keyOf x ≠ keyOf (mkSchedRow u e rl t) := by simpa using hany
    by_cases hk : keyOf (mkSchedRow u e rl t) = k
    · rw [if_pos hk]
      have hl : lookupK k s = none := by
        apply lookupK_eq_none_of_not_mem_keys
        intro hmem
        rcases mem_keysOf_iff.mp hmem with ⟨r, hr, hkr⟩
        exact hnone r hr (by rw [hkr, hk])
      rw [hl]
      rw [lookupK_cons, if_pos hk]
      rfl
    · rw [if_neg hk]
      cases hl : lookupK k s with
      | none =>
        rw [lookupK_cons, if_neg hk]
        rfl
      | some r => rfl

/-! ### The per-job effect of the planning loop on the schedule table -/

/-- The schedules component of one `planForEventAndUsers` loop iteration. -/
def applyJob (event : EventRow) (now : Int) (s : List SchedRow)
    (job : Nat × RuleRow) : List SchedRow :=
  match computeScheduledAt job.2 event now with
  | none => s
  | some t => if t < now - 5 * 60 * 1000 then s else upsertSchedule s job.1 event job.2 t

theorem foldl_planJobsStep_fst (event : EventRow) (now : Int) :
    ∀ (jobs : List (Nat × RuleRow)) (acc : List SchedRow × Nat × Nat),
      (jobs.foldl (planJobsStep event now) acc).1 =
        jobs.foldl (applyJob event now) acc.1 := by
  intro jobs
  induction jobs with
  | nil => intro acc; rfl
  | cons job rest ih =>
    intro acc
    rw [List.foldl_cons, List.foldl_cons, ih]
    congr 1
    unfold planJobsStep applyJob
    cases computeScheduledAt job.2 event now with
    | none => rfl
    | some t =>
      dsimp only
      split <;> rfl

/-- The time actually scheduled by a job, none when the job is skipped
(null basis or more than five minutes stale). -/
def jobTime (event : EventRow) (now : Int) (job : Nat × RuleRow) : Option Int :=
  match computeScheduledAt job.2 event now with
  | none => none
  | some t => if t < now - 5 * 60 * 1000 then none else some t

theorem applyJob_eq (event : EventRow) (now : Int) (s : List SchedRow)
    (job : Nat × RuleRow) :
    applyJob event now s job =
      (match jobTime event now job with
       | none => s
       | some t => upsertSchedule s job.1 event job.2 t) := by
  unfold applyJob jobTime
  cases computeScheduledAt job.2 event now with
  | none => rfl
  | some t =>
    dsimp only
    split <;> rfl

/-- The dedupe key written by a job (independent of the scheduled time). -/
def jobKeyOf (event : EventRow) (job : Nat × RuleRow) : String :=
  makeDedupeKey job.1 event.id job.2.channel job.2.trigger (job.2.offsetMinutes.getD 0)

theorem keyOf_mkSchedRow (u : Nat) (e : EventRow) (rl : RuleRow) (t : Int) :
    keyOf (mkSchedRow u e rl t) =
      makeDedupeKey u e.id rl.channel rl.trigger (rl.offsetMinutes.getD 0) := rfl

/-- The effect of one job on the row stored under key `k`. -/
def optStep (k : String) (event : EventRow) (now : Int) (o : Option SchedRow)
    (job : Nat × RuleRow) : Option SchedRow :=
  match jobTime event now job with
  | none => o
  | some t =>
    if jobKeyOf event job = k then some (mergeRow o (mkSchedRow job.1 event job.2 t))
    else o

theorem nodup_keys_applyJob {s : List SchedRow} (hN : (keysOf s).Nodup)
    (event : EventRow) (now : Int) (job : Nat × RuleRow) :
    (keysOf (applyJob event now s job)).Nodup := by
  rw [applyJob_eq]
  cases jobTime event now job with
  | none => exact hN
  | some t => exact nodup_keys_upsert hN _ _ _ _

theorem nodup_keys_foldl_applyJob (event : EventRow) (now : Int) :
    ∀ (jobs : List (Nat × RuleRow)) {s : List SchedRow}, (keysOf s).Nodup →
      (keysOf (jobs.foldl (applyJob event now) s)).Nodup := by
  intro jobs
  induction jobs with
  | nil => intro s hN; exact hN
  | cons job rest ih =>
    intro s hN
    rw [List.foldl_cons]
    exact ih (nodup_keys_applyJob hN event now job)

theorem lookupK_applyJob {k : String} {s : List SchedRow}
    (event : EventRow) (now : Int) (job : Nat × RuleRow) :
    lookupK k (applyJob event now s job) = optStep k event now (lookupK k s) job := by
  rw [applyJob_eq]
  unfold optStep
  cases jobTime event now job with
  | none => rfl
  | some t =>
    dsimp only
    rw [lookupK_upsert _ _ _ _]
    rw [keyOf_mkSchedRow]
    rfl

theorem lookupK_foldl_applyJob {k : String} (event : EventRow) (now : Int) :
    ∀ (jobs : List (Nat × RuleRow)) (s : List SchedRow),
      lookupK k (jobs.foldl (applyJob event now) s) =
        jobs.foldl (optStep k event now) (lookupK k s) := by
  intro jobs
  induction jobs with
  | nil => intro s; rfl
  | cons job rest ih =>
    intro s
    rw [List.foldl_cons, List.foldl_cons, ih, lookupK_applyJob]

/-- The purge as it acts on the row stored under one key. -/
def purgeKeep (eventId : Nat) (r : SchedRow) : Bool :=
  !(r.eventId == eventId &&
    (r.status == .PENDING || r.status == .FAILED || r.status == .CANCELED))

theorem purgeForEvent_eq_filter (s : List SchedRow) (eventId : Nat) :
    purgeForEvent s eventId = s.filter (purgeKeep eventId) := rfl

def pfOpt (eventId : Nat) : Option SchedRow → Option SchedRow
  | none => none
  | some r => if purgeKeep eventId r then some r else none

theorem lookupK_purgeForEvent {k : String} {s : List SchedRow}
    (hN : (keysOf s).Nodup) (eventId : Nat) :
    lookupK k (purgeForEvent s eventId) = pfOpt eventId (lookupK k s) := by
  rw [purgeForEvent_eq_filter, lookupK_filter _ hN]
  cases lookupK k s <;> rfl

theorem nodup_keys_purgeForEvent {s : List SchedRow} (hN : (keysOf s).Nodup)
    (eventId : Nat) : (keysOf (purgeForEvent s eventId)).Nodup := by
  rw [purgeForEvent_eq_filter]
  exact List.Nodup.sublist (List.Sublist.map keyOf (List.filter_sublist s)) hN

/-! ### Per-key idempotence of purge-then-upsert -/

theorem mergeRow_none (n : SchedRow) : mergeRow none n = n := rfl

theorem mergeRow_some (r n : SchedRow) :
    mergeRow (some r) n =
      { r with scheduledAtUtc := n.scheduledAtUtc, payload := n.payload,
               status := if r.status = .SENT then r.status else .PENDING } := rfl

theorem schedRow_ext {r1 r2 : SchedRow} (h1 : r1.userId = r2.userId)
    (h2 : r1.eventId = r2.eventId) (h3 : r1.channel = r2.channel)
    (h4 : r1.triggerType = r2.triggerType)
    (h5 : r1.triggerOffsetMinutes = r2.triggerOffsetMinutes)
    (h6 : r1.scheduledAtUtc = r2.scheduledAtUtc) (h7 : r1.status = r2.status)
    (h8 : r1.payload = r2.payload) : r1 = r2 := by
  cases r1
  cases r2
  simp_all

theorem keyOf_eq_fields {r1 r2 : SchedRow} (h : keyOf r1 = keyOf r2) :
    r1.userId = r2.userId ∧ r1.eventId = r2.eventId ∧ r1.channel = r2.channel ∧
      r1.triggerType = r2.triggerType ∧
      r1.triggerOffsetMinutes = r2.triggerOffsetMinutes :=
  makeDedupeKey_inj h

theorem mergeRow_congr {r1 r2 : SchedRow} (n : SchedRow) (hk : keyOf r1 = keyOf r2)
    (hs : r1.status = .SENT ↔ r2.status = .SENT) :
    mergeRow (some r1) n = mergeRow (some r2) n := by
  obtain ⟨h1, h2, h3, h4, h5⟩ := keyOf_eq_fields hk
  rw [mergeRow_some, mergeRow_some]
  have hst : (if r1.status = .SENT then r1.status else .PENDING) =
      (if r2.status = .SENT then r2.status else .PENDING) := by
    by_cases hr : r1.status = .SENT
    · rw [if_pos hr, if_pos (hs.mp hr), hr, hs.mp hr]
    · rw [if_neg hr, if_neg (fun h => hr (hs.mpr h))]
  rw [h1, h2, h3, h4, h5, hst]

theorem mergeRow_eq_new {r0 n : SchedRow} (hk : keyOf r0 = keyOf n)
    (hr0 : r0.status ≠ .SENT) (hn : n.status = .PENDING) :
    mergeRow (some r0) n = n := by
  obtain ⟨h1, h2, h3, h4, h5⟩ := keyOf_eq_fields hk
  rw [mergeRow_some]
  rw [h1, h2, h3, h4, h5, if_neg hr0, ← hn]

/-- Whether a job touches the row stored under key `k` at all. -/
def affects (k : String) (event : EventRow) (now : Int) (job : Nat × RuleRow) : Bool :=
  (jobTime event now job).isSome && (jobKeyOf event job == k)

theorem optStep_not_affects {k : String} {event : EventRow} {now : Int}
    {job : Nat × RuleRow} (o : Option SchedRow)
    (h : affects k event now job = false) : optStep k event now o job = o := by
  unfold optStep
  unfold affects at h
  cases htv : jobTime event now job with
  | none => rfl
  | some t =>
    rw [htv] at h
    simp at h
    dsimp only
    rw [if_neg h]

theorem foldl_optStep_eq_filter (k : String) (event : EventRow) (now : Int) :
    ∀ (jobs : List (Nat × RuleRow)) (o : Option SchedRow),
      jobs.foldl (optStep k event now) o =
        (jobs.filter (affects k event now)).foldl (optStep k event now) o := by
  intro jobs
  induction jobs with
  | nil => intro o; rfl
  | cons j rest ih =>
    intro o
    by_cases hj : affects k event now j = true
    · rw [List.foldl_cons, List.filter_cons_of_pos hj, List.foldl_cons, ih]
    · rw [List.foldl_cons, List.filter_cons_of_neg (by simpa using hj),
        optStep_not_affects o (by simpa using hj), ih]

theorem pfOpt_some_eq (eid : Nat) (r : SchedRow) :
    pfOpt eid (some r) = if purgeKeep eid r then some r else none := rfl

theorem pfOpt_idem (eid : Nat) (o : Option SchedRow) :
    pfOpt eid (pfOpt eid o) = pfOpt eid o := by
  cases o with
  | none => rfl
  | some r =>
    rw [pfOpt_some_eq]
    by_cases h : purgeKeep eid r
    · rw [if_pos h, pfOpt_some_eq, if_pos h]
    · rw [if_neg h]
      rfl

theorem pfOpt_some_elim {eid : Nat} {o : Option SchedRow} {r0 : SchedRow}
    (h : pfOpt eid o = some r0) : o = some r0 ∧ purgeKeep eid r0 = true := by
  cases o with
  | none => exact absurd h (by simp [pfOpt])
  | some r =>
    rw [pfOpt_some_eq] at h
    split at h
    · rename_i hkeep
      cases h
      exact ⟨rfl, hkeep⟩
    · cases h

theorem pfOpt_keys {eid : Nat} {o : Option SchedRow} {k : String}
    (ho : ∀ r0, o = some r0 → keyOf r0 = k) :
    ∀ r0, pfOpt eid o = some r0 → keyOf r0 = k := by
  intro r0 h
  exact ho r0 (pfOpt_some_elim h).1

theorem affects_parts {k : String} {event : EventRow} {now : Int}
    {job : Nat × RuleRow} (h : affects k event now job = true) :
    (∃ t, jobTime event now job = some t) ∧ jobKeyOf event job = k := by
  have h' : (jobTime event now job).isSome = true ∧ jobKeyOf event job = k := by
    simpa [affects] using h
  exact ⟨Option.isSome_iff_exists.mp h'.1, h'.2⟩

theorem keyOf_mkSchedRow_jobKey (event : EventRow) (job : Nat × RuleRow) (t : Int) :
    keyOf (mkSchedRow job.1 event job.2 t) = jobKeyOf event job := rfl

theorem mergeRow_sent_iff (o : Option SchedRow) {n : SchedRow}
    (hn : n.status = .PENDING) :
    ((mergeRow o n).status = .SENT ↔ ∃ r0, o = some r0 ∧ r0.status = .SENT) ∧
      ((mergeRow o n).status = .SENT ∨ (mergeRow o n).status = .PENDING) := by
  cases o with
  | none =>
    rw [mergeRow_none]
    constructor
    · rw [hn]
      simp
    · right
      exact hn
  | some r0 =>
    rw [mergeRow_some]
    by_cases hr : r0.status = .SENT
    · constructor
      · simp [if_pos hr, hr]
      · left
        simpa [if_pos hr] using hr
    · constructor
      · simp only [if_neg hr]
        constructor
        · intro h
          exact absurd h (by simp)
        · rintro ⟨r0e, he, hsent⟩
          cases he
          exact absurd hsent hr
      · right
        simp [if_neg hr]

/-- Characterization of a nonempty run of jobs all writing key `k`: the stored
row exists, carries key `k`, is SENT exactly when the seed row was SENT, and is
otherwise PENDING. -/
theorem foldl_optStep_all_affects (k : String) (event : EventRow) (now : Int) :
    ∀ (A : List (Nat × RuleRow)), (∀ j ∈ A, affects k event now j = true) → A ≠ [] →
      ∀ o : Option SchedRow, (∀ r0, o = some r0 → keyOf r0 = k) →
        ∃ r1, A.foldl (optStep k event now) o = some r1 ∧ keyOf r1 = k ∧
          (r1.status = .SENT ↔ ∃ r0, o = some r0 ∧ r0.status = .SENT) ∧
          (r1.status = .SENT ∨ r1.status = .PENDING) := by
  intro A
  induction A with
  | nil => intro _ hne; exact absurd rfl hne
  | cons a rest ih =>
    intro hall _ o ho
    obtain ⟨⟨t, htv⟩, hkj⟩ := affects_parts (hall a (by simp))
    have hstep : optStep k event now o a =
        some (mergeRow o (mkSchedRow a.1 event a.2 t)) := by
      unfold optStep
      rw [htv]
      dsimp only
      rw [if_pos hkj]
    have hkeyn : keyOf (mkSchedRow a.1 event a.2 t) = k := by
      rw [keyOf_mkSchedRow_jobKey]
      exact hkj
    have hkm : keyOf (mergeRow o (mkSchedRow a.1 event a.2 t)) = k := by
      cases o with
      | none => rw [mergeRow_none]; exact hkeyn
      | some r0 => rw [mergeRow_some]; exact ho r0 rfl
    obtain ⟨hsm, hpm⟩ := mergeRow_sent_iff o
      (show (mkSchedRow a.1 event a.2 t).status = .PENDING from rfl)
    cases rest with
    | nil =>
      refine ⟨mergeRow o (mkSchedRow a.1 event a.2 t), ?_, hkm, hsm, hpm⟩
      rw [List.foldl_cons, hstep]
      rfl
    | cons b rest' =>
      have hall' : ∀ j ∈ b :: rest', affects k event now j = true :=
        fun j hj => hall j (by simp [hj])
      obtain ⟨r1, hfold, hk1, hs1, hp1⟩ := ih hall' (by simp)
        (optStep k event now o a)
        (by rw [hstep]; intro r0 hh; rw [Option.some_inj] at hh; rw [← hh]; exact hkm)
      refine ⟨r1, ?_, hk1, ?_, hp1⟩
      · rw [List.foldl_cons]
        exact hfold
      · rw [hs1, hstep]
        constructor
        · rintro ⟨r0, he, hsent⟩
          rw [Option.some_inj] at he
          rw [he] at hsm
          exact hsm.mp hsent
        · intro hex
          exact ⟨_, rfl, hsm.mpr hex⟩

theorem purgeKeep_of_sent {eid : Nat} {r : SchedRow} (h : r.status = .SENT) :
    purgeKeep eid r = true := by
  simp [purgeKeep, h]

theorem purgeKeep_false_of_pending {eid : Nat} {r : SchedRow} (hev : r.eventId = eid)
    (h : r.status = .PENDING) : purgeKeep eid r = false := by
  simp [purgeKeep, hev, h]

/-- One purge-then-replan round is idempotent on the row stored under any key. -/
theorem optStep_fold_idem (k : String) (event : EventRow) (now : Int) (eventId : Nat)
    (hid : event.id = eventId) (jobs : List (Nat × RuleRow)) (l0 : Option SchedRow)
    (hl0 : ∀ r0, l0 = some r0 → keyOf r0 = k) :
    jobs.foldl (optStep k event now)
      (pfOpt eventId (jobs.foldl (optStep k event now) (pfOpt eventId l0))) =
    jobs.foldl (optStep k event now) (pfOpt eventId l0) := by
  have h2 : ∀ o, jobs.foldl (optStep k event now) o =
      (jobs.filter (affects k event now)).foldl (optStep k event now) o :=
    foldl_optStep_eq_filter k event now jobs
  simp only [h2]
  cases hAe : jobs.filter (affects k event now) with
  | nil =>
    simp only [List.foldl_nil]
    exact pfOpt_idem eventId l0
  | cons a rest =>
    have hall : ∀ j ∈ jobs.filter (affects k event now),
        affects k event now j = true := fun j hj => (List.mem_filter.mp hj).2
    obtain ⟨r1, hX1, hk1, hs1, hp1⟩ := foldl_optStep_all_affects k event now
      (jobs.filter (affects k event now)) hall (by rw [hAe]; simp) (pfOpt eventId l0)
      (pfOpt_keys hl0)
    rw [hAe] at hX1
    rw [hX1, List.foldl_cons]
    rw [List.foldl_cons] at hX1
    have haff := hall a (by rw [hAe]; simp)
    obtain ⟨⟨t, htv⟩, hkj⟩ := affects_parts haff
    have hostep : ∀ o : Option SchedRow, optStep k event now o a =
        some (mergeRow o (mkSchedRow a.1 event a.2 t)) := by
      intro o
      unfold optStep
      rw [htv]
      dsimp only
      rw [if_pos hkj]
    have hkeyn : keyOf (mkSchedRow a.1 event a.2 t) = k := by
      rw [keyOf_mkSchedRow_jobKey]
      exact hkj
    suffices hstep : optStep k event now (pfOpt eventId (some r1)) a =
        optStep k event now (pfOpt eventId l0) a by
      rw [hstep]
      exact hX1
    rw [hostep, hostep]
    have hr1ev : r1.eventId = eventId := by
      have : keyOf r1 = jobKeyOf event a := by rw [hk1, hkj]
      have hfields := makeDedupeKey_inj this
      rw [hfields.2.1, hid]
    rcases hp1 with hsent | hpend
    · have hkeep : purgeKeep eventId r1 = true := purgeKeep_of_sent hsent
      rw [pfOpt_some_eq, if_pos hkeep]
      obtain ⟨r0, hr0eq, hr0sent⟩ := hs1.mp hsent
      rw [hr0eq]
      exact congrArg _ (mergeRow_congr _ (by rw [hk1, pfOpt_keys hl0 r0 hr0eq])
        (by rw [hsent, hr0sent]))
    · have hnosent : ¬∃ r0, pfOpt eventId l0 = some r0 ∧ r0.status = .SENT := by
        intro hex
        have := hs1.mpr hex
        rw [hpend] at this
        cases this
      have hkeep : purgeKeep eventId r1 = false :=
        purgeKeep_false_of_pending hr1ev hpend
      rw [pfOpt_some_eq, if_neg (by simp [hkeep])]
      cases hl : pfOpt eventId l0 with
      | none => rfl
      | some r0 =>
        have hr0k : keyOf r0 = k := pfOpt_keys hl0 r0 hl
        have hr0ns : r0.status ≠ .SENT := fun hx => hnosent ⟨r0, hl, hx⟩
        rw [mergeRow_none]
        exact congrArg _ (mergeRow_eq_new (by rw [hr0k, hkeyn]) hr0ns rfl).symm

theorem getEvent_id {db : SchedulingDb} {eventId : Nat} {e : EventRow}
    (h : getEvent db eventId = some e) : e.id = eventId := by
  unfold getEvent at h
  have := List.find?_some h
  simpa using this

/-- The schedule table produced by one `planNotificationsForEvent` call on a
found PUBLIC event: purge, then fold the jobs. -/
def planSchedules (db : SchedulingDb) (event : EventRow) (now : Int) (eventId : Nat) :
    List SchedRow :=
  (jobList db event none).foldl (applyJob event now) (purgeForEvent db.schedules eventId)

theorem planNotificationsForEvent_db_eq (db : SchedulingDb) (eventId : Nat) (now : Int)
    (event : EventRow) (hfind : getEvent db eventId = some event)
    (hvis : event.visibility = .PUBLIC) :
    (planNotificationsForEvent db eventId now).1 =
      { db with schedules := planSchedules db event now eventId } := by
  unfold planNotificationsForEvent
  rw [hfind]
  dsimp only
  unfold planForEventAndUsers planSchedules
  rw [if_neg (by rw [hvis]; simp)]
  split
  · rename_i htargets
    have hjl : jobList { db with schedules := purgeForEvent db.schedules eventId }
        event none = [] := by
      unfold jobList
      rw [htargets]
      rfl
    rw [show jobList db event none =
      jobList { db with schedules := purgeForEvent db.schedules eventId } event none
      from rfl, hjl]
    rfl
  · rw [foldl_planJobsStep_fst]
    rfl

/-- Claim C5: calling `planNotificationsForEvent` twice in succession for the
same PUBLIC event, with the same rules, subscriptions and event data (and the
same clock), yields the same set of schedule rows: membership of rows is
unchanged by the second call and the dedupe keys stay pairwise distinct (no
duplicate row for any user/event/channel/trigger/offset combination). -/
theorem planNotificationsForEvent_idempotent (db : SchedulingDb) (eventId : Nat)
    (now : Int) (event : EventRow) (hfind : getEvent db eventId = some event)
    (hvis : event.visibility = .PUBLIC) (hN : (keysOf db.schedules).Nodup) :
    (keysOf (planNotificationsForEvent db eventId now).1.schedules).Nodup ∧
    (keysOf (planNotificationsForEvent (planNotificationsForEvent db eventId now).1
        eventId now).1.schedules).Nodup ∧
    ∀ r : SchedRow,
      r ∈ (planNotificationsForEvent (planNotificationsForEvent db eventId now).1
        eventId now).1.schedules ↔
      r ∈ (planNotificationsForEvent db eventId now).1.schedules := by
  have hid := getEvent_id hfind
  have hP1 := planNotificationsForEvent_db_eq db eventId now event hfind hvis
  have hfind1 : getEvent { db with schedules := planSchedules db event now eventId }
      eventId = some event := hfind
  have hP2 := planNotificationsForEvent_db_eq
    { db with schedules := planSchedules db event now eventId } eventId now event
    hfind1 hvis
  have hNS1 : (keysOf (planSchedules db event now eventId)).Nodup := by
    unfold planSchedules
    exact nodup_keys_foldl_applyJob event now _ (nodup_keys_purgeForEvent hN eventId)
  have hS2def : planSchedules { db with schedules := planSchedules db event now eventId }
      event now eventId =
      (jobList db event none).foldl (applyJob event now)
        (purgeForEvent (planSchedules db event now eventId) eventId) := rfl
  have hNS2 : (keysOf (planSchedules
      { db with schedules := planSchedules db event now eventId }
      event now eventId)).Nodup := by
    rw [hS2def]
    exact nodup_keys_foldl_applyJob event now _ (nodup_keys_purgeForEvent hNS1 eventId)
  have hS1look : ∀ k, lookupK k (planSchedules db event now eventId) =
      (jobList db event none).foldl (optStep k event now)
        (pfOpt eventId (lookupK k db.schedules)) := by
    intro k
    unfold planSchedules
    rw [lookupK_foldl_applyJob, lookupK_purgeForEvent hN]
  have hlook : ∀ k, lookupK k (planSchedules
      { db with schedules := planSchedules db event now eventId } event now eventId) =
      lookupK k (planSchedules db event now eventId) := by
    intro k
    rw [hS2def, lookupK_foldl_applyJob, lookupK_purgeForEvent hNS1, hS1look k]
    exact optStep_fold_idem k event now eventId hid (jobList db event none)
      (lookupK k db.schedules) (fun r0 h => (lookupK_mem h).2)
  refine ⟨?_, ?_, ?_⟩
  · rw [hP1]
    exact hNS1
  · rw [hP1, hP2]
    exact hNS2
  · intro r
    rw [hP1, hP2]
    show r ∈ planSchedules { db with schedules := planSchedules db event now eventId }
        event now eventId ↔
      r ∈ planSchedules db event now eventId
    rw [mem_iff_lookupK hNS2 r, mem_iff_lookupK hNS1 r, hlook (keyOf r)]

def c5Event : EventRow :=
  { id := 1, regionId := 2, type := .PICKUP, title := "pickup banner", summary := "",
    startAtUtc := some 1000000, endAtUtc := some 2000000, createdAt := some 0,
    visibility := .PUBLIC, sourceUrl := "", canonicalEventKey := "", confidence := 70 }

def c5Rule : RuleRow :=
  { id := 1, userId := 3, scope := .GLOBAL, regionId := none, eventType := .PICKUP,
    trigger := .ON_START, offsetMinutes := none, channel := .WEBPUSH, enabled := true }

def c5Sub : UserGameRow := { userId := 3, regionId := 2, enabled := true }

def c5Db : SchedulingDb :=
  { events := [c5Event], rules := [c5Rule], userGames := [c5Sub], schedules := [] }

/-- Witness for claim C5: a concrete PUBLIC event with one matching rule and
one subscribed user. -/
theorem planNotificationsForEvent_idempotent_witness :
    (keysOf (planNotificationsForEvent c5Db 1 1000000).1.schedules).Nodup ∧
    (keysOf (planNotificationsForEvent (planNotificationsForEvent c5Db 1 1000000).1
        1 1000000).1.schedules).Nodup ∧
    ∀ r : SchedRow,
      r ∈ (planNotificationsForEvent (planNotificationsForEvent c5Db 1 1000000).1
        1 1000000).1.schedules ↔
      r ∈ (planNotificationsForEvent c5Db 1 1000000).1.schedules :=
  planNotificationsForEvent_idempotent c5Db 1 1000000 c5Event (by decide) rfl
    (by decide)

/-! ### Dispatch Engine (`dispatch.ts`).  Schedule rows here carry their serial
id, since the dispatcher updates rows by id; the claim query and per-schedule
processing are modelled sequentially (one dispatcher). -/

structure DispatchScheduleRow where
  id : Nat
  userId : Nat
  eventId : Nat
  channel : Channel
  triggerType : RuleTrigger
  triggerOffsetMinutes : Int
  scheduledAtUtc : Int
  status : SchedStatus
  payload : SchedPayload
deriving DecidableEq, Repr

structure UserRow where
  id : Nat
  email : Option String
deriving DecidableEq, Repr

structure DeliveryRow where
  scheduleId : Nat
  result : DeliveryResult
  errorMessage : Option String
deriving DecidableEq, Repr

structure DispatchDb where
  schedules : List DispatchScheduleRow
  deliveries : List DeliveryRow
  users : List UserRow
  pushSubscriptions : List Nat
deriving DecidableEq, Repr

/-- `markScheduleResult(scheduleId, result, ...)`: append one delivery-log row
and set the schedule status to SENT on SUCCESS, FAILED otherwise. -/
def markScheduleResult (db : DispatchDb) (scheduleId : Nat) (result : DeliveryResult)
    (errorMessage : Option String) : DispatchDb :=
  { db with
      deliveries := db.deliveries ++ [⟨scheduleId, result, errorMessage⟩]
      schedules := db.schedules.map (fun r =>
        if r.id == scheduleId then
          { r with status := if result = .SUCCESS then .SENT else .FAILED }
        else r) }

/-- `hasPushSubscription(userId)`: `COUNT(*) > 0` over `push_subscriptions`. -/
def hasPushSubscription (db : DispatchDb) (userId : Nat) : Bool :=
  decide (0 < (db.pushSubscriptions.filter (fun u => u == userId)).length)

/-- `hasEmail(userId)`: `Boolean(email)` — false for a missing user, a null
email, or an empty string. -/
def hasEmail (db : DispatchDb) (userId : Nat) : Bool :=
  match db.users.find? (fun u => u.id == userId) with
  | none => false
  | some u =>
    match u.email with
    | none => false
    | some e => e != ""

/-- The per-schedule delivery attempt of `dispatchDueNotifications`, returning
the updated state and whether the attempt was a SUCCESS. -/
def processSchedule (db : DispatchDb) (schedule : DispatchScheduleRow) :
    DispatchDb × Bool :=
  if schedule.channel = .WEBPUSH ∧ hasPushSubscription db schedule.userId = false then
    (markScheduleResult db schedule.id .FAILED (some "No push subscription for user"),
      false)
  else if schedule.channel = .EMAIL ∧ hasEmail db schedule.userId = false then
    (markScheduleResult db schedule.id .FAILED (some "User email not available"), false)
  else if schedule.channel = .DISCORD then
    (markScheduleResult db schedule.id .FAILED (some "Discord webhook is not configured"),
      false)
  else
    (markScheduleResult db schedule.id .SUCCESS none, true)

/-- `WHERE status = 'PENDING' AND scheduled_at_utc <= NOW()`. -/
def dueSchedules (db : DispatchDb) (now : Int) : List DispatchScheduleRow :=
  db.schedules.filter (fun r => r.status == .PENDING && decide (r.scheduledAtUtc ≤ now))

def insertByTime (r : DispatchScheduleRow) :
    List DispatchScheduleRow → List DispatchScheduleRow
  | [] => [r]
  | x :: xs =>
    if x.scheduledAtUtc ≤ r.scheduledAtUtc then x :: insertByTime r xs else r :: x :: xs

/-- `ORDER BY scheduled_at_utc ASC` (insertion sort). -/
def sortByTime : List DispatchScheduleRow → List DispatchScheduleRow
  | [] => []
  | x :: xs => insertByTime x (sortByTime xs)

/-- The rows claimed by the `FOR UPDATE SKIP LOCKED ... LIMIT` CTE. -/
def claimedSchedules (db : DispatchDb) (limit : Nat) (now : Int) :
    List DispatchScheduleRow :=
  (sortByTime (dueSchedules db now)).take limit

/-- `SET status = 'PROCESSING'` for the claimed ids. -/
def markProcessing (db : DispatchDb) (ids : List Nat) : DispatchDb :=
  { db with schedules := db.schedules.map (fun r =>
      if r.id ∈ ids then { r with status := .PROCESSING } else r) }

/-- The body of the delivery loop, threading `(db, sent, failed)`. -/
def dispatchLoopStep (acc : DispatchDb × Nat × Nat) (schedule : DispatchScheduleRow) :
    DispatchDb × Nat × Nat :=
  let r := processSchedule acc.1 schedule
  (r.1, if r.2 then acc.2.1 + 1 else acc.2.1, if r.2 then acc.2.2 else acc.2.2 + 1)

/-- `dispatchDueNotifications(limit)`: claim up to `limit` due PENDING rows,
flip them to PROCESSING, then attempt each delivery; returns the final state
and `(picked, sent, failed)`. -/
def dispatchDueNotifications (db : DispatchDb) (limit : Nat) (now : Int) :
    DispatchDb × Nat × Nat × Nat :=
  let claimed := claimedSchedules db limit now
  let db1 := markProcessing db (claimed.map (fun r => r.id))
  let final := claimed.foldl dispatchLoopStep (db1, 0, 0)
  (final.1, claimed.length, final.2.1, final.2.2)

theorem markScheduleResult_terminal (db : DispatchDb) (sid : Nat)
    (result : DeliveryResult) (err : Option String) :
    ∀ r ∈ (markScheduleResult db sid result err).schedules, r.id = sid →
      r.status = .SENT ∨ r.status = .FAILED := by
  intro r hr hid
  unfold markScheduleResult at hr
  simp only at hr
  rcases List.mem_map.mp hr with ⟨r0, _hr0, heq⟩
  by_cases h0 : r0.id == sid
  · rw [if_pos h0] at heq
    rw [← heq]
    cases result with
    | SUCCESS => left; simp
    | FAILED => right; simp
  · rw [if_neg h0] at heq
    exfalso
    apply h0
    rw [heq, hid]
    simp

theorem markScheduleResult_other (db : DispatchDb) (sid : Nat)
    (result : DeliveryResult) (err : Option String) :
    ∀ r ∈ (markScheduleResult db sid result err).schedules, r.id ≠ sid →
      r ∈ db.schedules := by
  intro r hr hid
  unfold markScheduleResult at hr
  simp only at hr
  rcases List.mem_map.mp hr with ⟨r0, hr0, heq⟩
  by_cases h0 : r0.id == sid
  · rw [if_pos h0] at heq
    exfalso
    apply hid
    rw [← heq]
    exact beq_iff_eq.mp h0
  · rw [if_neg h0] at heq
    rw [← heq]
    exact hr0

theorem processSchedule_terminal (db : DispatchDb) (s : DispatchScheduleRow) :
    ∀ r ∈ (processSchedule db s).1.schedules, r.id = s.id →
      r.status = .SENT ∨ r.status = .FAILED := by
  unfold processSchedule
  split_ifs <;> exact markScheduleResult_terminal db s.id _ _

theorem processSchedule_other (db : DispatchDb) (s : DispatchScheduleRow) :
    ∀ r ∈ (processSchedule db s).1.schedules, r.id ≠ s.id → r ∈ db.schedules := by
  unfold processSchedule
  split_ifs <;> exact markScheduleResult_other db s.id _ _

theorem processSchedule_deliveries (db : DispatchDb) (s : DispatchScheduleRow) :
    ∃ d : DeliveryRow, d.scheduleId = s.id ∧
      (processSchedule db s).1.deliveries = db.deliveries ++ [d] := by
  unfold processSchedule
  split_ifs <;> exact ⟨_, rfl, rfl⟩

theorem dispatchLoop_schedules (jobs : List DispatchScheduleRow) :
    ∀ acc : DispatchDb × Nat × Nat,
      ∀ r ∈ (jobs.foldl dispatchLoopStep acc).1.schedules,
        (r.id ∈ jobs.map (fun c => c.id) → r.status = .SENT ∨ r.status = .FAILED) ∧
        (r.id ∉ jobs.map (fun c => c.id) → r ∈ acc.1.schedules) := by
  induction jobs with
  | nil =>
    intro acc r hr
    exact ⟨fun h => absurd h (by simp), fun _ => hr⟩
  | cons j rest ih =>
    intro acc r hr
    rw [List.foldl_cons] at hr
    obtain ⟨ht, hp⟩ := ih (dispatchLoopStep acc j) r hr
    constructor
    · intro hmem
      rw [List.map_cons] at hmem
      rcases List.mem_cons.mp hmem with he | hm
      · by_cases hrest : r.id ∈ rest.map (fun c => c.id)
        · exact ht hrest
        · have hmem1 : r ∈ (dispatchLoopStep acc j).1.schedules := hp hrest
          exact processSchedule_terminal acc.1 j r hmem1 he
      · exact ht hm
    · intro hnmem
      have hrest : r.id ∉ rest.map (fun c => c.id) := by
        intro h
        exact hnmem (by simp [h])
      have hne : r.id ≠ j.id := by
        intro h
        exact hnmem (by simp [h])
      exact processSchedule_other acc.1 j r (hp hrest) hne

theorem dispatchLoop_deliveries (jobs : List DispatchScheduleRow) :
    ∀ acc : DispatchDb × Nat × Nat,
      ∃ ds : List DeliveryRow,
        (jobs.foldl dispatchLoopStep acc).1.deliveries = acc.1.deliveries ++ ds ∧
        ds.map (fun d => d.scheduleId) = jobs.map (fun c => c.id) := by
  induction jobs with
  | nil => exact fun acc => ⟨[], by simp, by simp⟩
  | cons j rest ih =>
    intro acc
    obtain ⟨ds, hds, hmap⟩ := ih (dispatchLoopStep acc j)
    obtain ⟨d, hd, hdel⟩ := processSchedule_deliveries acc.1 j
    refine ⟨d :: ds, ?_, ?_⟩
    · rw [List.foldl_cons, hds]
      show (processSchedule acc.1 j).1.deliveries ++ ds = _
      rw [hdel, List.append_assoc]
      rfl
    · rw [List.map_cons, List.map_cons, hmap, hd]

theorem dispatchLoop_counters (jobs : List DispatchScheduleRow) :
    ∀ acc : DispatchDb × Nat × Nat,
      (jobs.foldl dispatchLoopStep acc).2.1 + (jobs.foldl dispatchLoopStep acc).2.2 =
        acc.2.1 + acc.2.2 + jobs.length := by
  induction jobs with
  | nil => intro acc; simp
  | cons j rest ih =>
    intro acc
    rw [List.foldl_cons]
    rw [ih (dispatchLoopStep acc j)]
    unfold dispatchLoopStep
    cases hb : (processSchedule acc.1 j).2 <;> simp [hb] <;> omega

/-- Claim C6: after `dispatchDueNotifications` returns, every claimed schedule
has status SENT or FAILED (none is left PROCESSING), exactly one delivery-log
row was appended per claimed schedule (in order, recording its outcome), and
the returned counters satisfy `picked = sent + failed`. -/
theorem dispatchDueNotifications_complete (db : DispatchDb) (limit : Nat) (now : Int) :
    (∀ r ∈ (dispatchDueNotifications db limit now).1.schedules,
        r.id ∈ (claimedSchedules db limit now).map (fun c => c.id) →
        r.status = .SENT ∨ r.status = .FAILED) ∧
    (∃ ds : List DeliveryRow,
        (dispatchDueNotifications db limit now).1.deliveries = db.deliveries ++ ds ∧
        ds.map (fun d => d.scheduleId) =
          (claimedSchedules db limit now).map (fun c => c.id)) ∧
    (dispatchDueNotifications db limit now).2.1 =
      (dispatchDueNotifications db limit now).2.2.1 +
        (dispatchDueNotifications db limit now).2.2.2 := by
  refine ⟨?_, ?_, ?_⟩
  · intro r hr hmem
    have hr' : r ∈ ((claimedSchedules db limit now).foldl dispatchLoopStep
        (markProcessing db ((claimedSchedules db limit now).map (fun c => c.id)),
          0, 0)).1.schedules := hr
    exact (dispatchLoop_schedules (claimedSchedules db limit now)
      (markProcessing db ((claimedSchedules db limit now).map (fun c => c.id)), 0, 0)
      r hr').1 hmem
  · obtain ⟨ds, hds, hmap⟩ := dispatchLoop_deliveries (claimedSchedules db limit now)
      (markProcessing db ((claimedSchedules db limit now).map (fun c => c.id)), 0, 0)
    refine ⟨ds, ?_, hmap⟩
    show ((claimedSchedules db limit now).foldl dispatchLoopStep
        (markProcessing db ((claimedSchedules db limit now).map (fun c => c.id)),
          0, 0)).1.deliveries = db.deliveries ++ ds
    exact hds
  · have hcount := dispatchLoop_counters (claimedSchedules db limit now)
      (markProcessing db ((claimedSchedules db limit now).map (fun c => c.id)), 0, 0)
    dsimp only at hcount
    show (claimedSchedules db limit now).length =
      ((claimedSchedules db limit now).foldl dispatchLoopStep
        (markProcessing db ((claimedSchedules db limit now).map (fun c => c.id)),
          0, 0)).2.1 +
      ((claimedSchedules db limit now).foldl dispatchLoopStep
        (markProcessing db ((claimedSchedules db limit now).map (fun c => c.id)),
          0, 0)).2.2
    omega

/-! ### Raw Notice Store and Event Canonicalizer (`ingest.ts`), composed with
the Scheduling Engine.  `sha256` is the function parameter `hash`. -/

structure RawNoticeRow where
  id : Nat
  sourceId : Nat
  url : String
  title : String
  publishedAt : Option String
  fetchedAt : Int
  contentText : String
  contentHash : String
  rawPayload : String
  parserVersion : String
  status : RawStatus
deriving DecidableEq, Repr

structure RawCandidate where
  url : String
  title : String
  publishedAt : Option String
  contentText : String
  rawPayload : String
deriving DecidableEq, Repr

/-- The columns of a source row that the ingest/canonicalize path reads. -/
structure SourceRow where
  id : Nat
  regionId : Nat
  regionTimezone : String
deriving DecidableEq, Repr

structure IngestDb where
  sched : SchedulingDb
  rawNotices : List RawNoticeRow
  eventRawLinks : List (Nat × Nat)
  nextRawNoticeId : Nat
  nextEventId : Nat
deriving DecidableEq, Repr

def allowedSlugChar (c : Char) : Bool :=
  ('a' ≤ c && c ≤ 'z') || c.isDigit || isJsWs c || c = '-'

/-- Whitespace-run collapsing with an arbitrary replacement character
(`replace` with a single-character replacement). -/
def collapseWsWith (rep : Char) : Bool → List Char → List Char
  | _, [] => []
  | prevWs, c :: rest =>
    if isJsWs c then
      if prevWs then collapseWsWith rep true rest
      else rep :: collapseWsWith rep true rest
    else c :: collapseWsWith rep false rest

/-- `slugify`: lowercase, strip characters outside `[a-z0-9\s-]`, trim,
whitespace runs to dashes, first 60 code units. -/
def slugify (input : String) : String :=
  ⟨(collapseWsWith '-' false
      (trimChars ((input.data.map Char.toLower).filter allowedSlugChar))).take 60⟩

def eventTypeLower (t : EventType) : String := toLowerStr (eventTypeName t)

/-- `toCanonicalEventKey`: region, lowercased type, slug and the first 12 hex
characters of the hash of the identity tuple. -/
def toCanonicalEventKey (hash : String → String) (regionId : Nat) (type : EventType)
    (title : String) (startAtUtc endAtUtc : Option String) : String :=
  natToStr regionId ++ "-" ++ eventTypeLower type ++ "-" ++ slugify title ++ "-" ++
    ⟨(hash (natToStr regionId ++ ":" ++ eventTypeName type ++ ":" ++ slugify title ++
      ":" ++ startAtUtc.getD "na" ++ ":" ++ endAtUtc.getD "na")).data.take 12⟩

/-- Parse the `YYYY-MM-DDTHH:MM:SS.mmmZ` UTC instants that this pipeline
writes into `timestamptz` columns (the shape `toUtcIso` emits), as epoch
milliseconds. -/
def isoToMs (s : String) : Option Int :=
  match s.data with
  | [y1, y2, y3, y4, '-', m1, m2, '-', d1, d2, 'T', h1, h2, ':', mi1, mi2, ':',
      s1, s2, '.', x1, x2, x3, 'Z'] =>
    if y1.isDigit && y2.isDigit && y3.isDigit && y4.isDigit && m1.isDigit &&
        m2.isDigit && d1.isDigit && d2.isDigit && h1.isDigit && h2.isDigit &&
        mi1.isDigit && mi2.isDigit && s1.isDigit && s2.isDigit && x1.isDigit &&
        x2.isDigit && x3.isDigit then
      let y := ((y1.toNat - 48) * 1000 + (y2.toNat - 48) * 100 +
        (y3.toNat - 48) * 10 + (y4.toNat - 48))
      let mo := (m1.toNat - 48) * 10 + (m2.toNat - 48)
      let d := (d1.toNat - 48) * 10 + (d2.toNat - 48)
      let h := (h1.toNat - 48) * 10 + (h2.toNat - 48)
      let mi := (mi1.toNat - 48) * 10 + (mi2.toNat - 48)
      let sec := (s1.toNat - 48) * 10 + (s2.toNat - 48)
      let ms := (x1.toNat - 48) * 100 + (x2.toNat - 48) * 10 + (x3.toNat - 48)
      if 1 ≤ mo ∧ mo ≤ 12 ∧ 1 ≤ d ∧ d ≤ daysInMonth y mo ∧ h ≤ 23 ∧ mi ≤ 59 ∧
          sec ≤ 59 then
        some (daysFromCivil y mo d * 86400000 +
          ((h : Int) * 3600 + (mi : Int) * 60 + (sec : Int)) * 1000 + (ms : Int))
      else none
    else none
  | _ => none

/-- `upsertRawNotice(sourceId, candidate)`: content-hash change detection.
Returns the new state, the raw notice id, and `changed`. -/
def upsertRawNotice (hash : String → String) (sourceId : Nat) (candidate : RawCandidate)
    (now : Int) (db : IngestDb) : IngestDb × Nat × Bool :=
  match db.rawNotices.find? (fun r => r.sourceId == sourceId && r.url == candidate.url) with
  | some existing =>
    if existing.contentHash =
        hash (normalizeText (candidate.title ++ "\n" ++ candidate.contentText)) then
      ({ db with rawNotices := db.rawNotices.map (fun r =>
          if r.sourceId == sourceId && r.url == candidate.url then
            { r with fetchedAt := now, title := candidate.title,
                     publishedAt := match candidate.publishedAt with
                       | some p => some p
                       | none => r.publishedAt }
          else r) }, existing.id, false)
    else
      ({ db with rawNotices := db.rawNotices.map (fun r =>
          if r.sourceId == sourceId && r.url == candidate.url then
            { r with title := candidate.title, publishedAt := candidate.publishedAt,
                     fetchedAt := now, contentText := candidate.contentText,
                     contentHash := hash (normalizeText (candidate.title ++ "\n" ++
                       candidate.contentText)),
                     rawPayload := candidate.rawPayload, parserVersion := "v1",
                     status := .NEW }
          else r) }, existing.id, true)
  | none =>
    ({ db with
        rawNotices := db.rawNotices ++
          [{ id := db.nextRawNoticeId, sourceId := sourceId, url := candidate.url,
             title := candidate.title, publishedAt := candidate.publishedAt,
             fetchedAt := now, contentText := candidate.contentText,
             contentHash := hash (normalizeText (candidate.title ++ "\n" ++
               candidate.contentText)),
             rawPayload := candidate.rawPayload, parserVersion := "v1",
             status := .NEW }]
        nextRawNoticeId := db.nextRawNoticeId + 1 }, db.nextRawNoticeId, true)

def getRawNotice (db : IngestDb) (rawNoticeId : Nat) : Option RawNoticeRow :=
  db.rawNotices.find? (fun r => r.id == rawNoticeId)

/-- `upsertEventFromRaw(source, rawNotice)`: parse the draft, upsert the event
by canonical key (last write wins), record provenance, mark the raw notice
PARSED, and re-plan notifications for the event. -/
def upsertEventFromRaw (hash : String → String) (source : SourceRow)
    (rawNotice : RawNoticeRow) (now : Int) (db : IngestDb) : IngestDb × Nat :=
  let draft := parseRawNoticeToEventDraft
    { title := rawNotice.title, contentText := rawNotice.contentText,
      timezone := source.regionTimezone }
  let canonicalEventKey := toCanonicalEventKey hash source.regionId draft.type
    draft.title draft.startAtUtc draft.endAtUtc
  let upserted : SchedulingDb × Nat × Nat :=
    match db.sched.events.find? (fun e => e.canonicalEventKey == canonicalEventKey) with
    | some existing =>
      ({ db.sched with events := db.sched.events.map (fun e =>
          if e.canonicalEventKey == canonicalEventKey then
            { e with type := draft.type, title := draft.title, summary := draft.summary,
                     startAtUtc := draft.startAtUtc.bind isoToMs,
                     endAtUtc := draft.endAtUtc.bind isoToMs,
                     sourceUrl := rawNotice.url, confidence := draft.confidence,
                     visibility := draft.visibility }
          else e) }, existing.id, db.nextEventId)
    | none =>
      ({ db.sched with events := db.sched.events ++
          [{ id := db.nextEventId, regionId := source.regionId, type := draft.type,
             title := draft.title, summary := draft.summary,
             startAtUtc := draft.startAtUtc.bind isoToMs,
             endAtUtc := draft.endAtUtc.bind isoToMs, createdAt := some now,
             visibility := draft.visibility, sourceUrl := rawNotice.url,
             canonicalEventKey := canonicalEventKey,
             confidence := draft.confidence }] }, db.nextEventId, db.nextEventId + 1)
  let eventId := upserted.2.1
  let links := if (eventId, rawNotice.id) ∈ db.eventRawLinks then db.eventRawLinks
    else db.eventRawLinks ++ [(eventId, rawNotice.id)]
  let raws := db.rawNotices.map (fun r =>
    if r.id == rawNotice.id then { r with status := .PARSED } else r)
  let planned := (planNotificationsForEvent upserted.1 eventId now).1
  ({ db with sched := planned, rawNotices := raws, eventRawLinks := links,
             nextEventId := upserted.2.2 }, eventId)

/-- The body of the per-candidate loop in `runSourceFetch` (success path):
upsert the raw notice and, only when its content changed, re-parse it into the
event catalog; returns the state and whether a parse happened. -/
def processCandidate (hash : String → String) (source : SourceRow)
    (candidate : RawCandidate) (now : Int) (db : IngestDb) : IngestDb × Bool :=
  let res := upsertRawNotice hash source.id candidate now db
  if res.2.2 = false then (res.1, false)
  else
    match getRawNotice res.1 res.2.1 with
    | none => (res.1, false)
    | some rawNotice => ((upsertEventFromRaw hash source rawNotice now res.1).1, true)

def c8Row : RawNoticeRow :=
  { id := 1, sourceId := 1, url := "u", title := "T", publishedAt := none,
    fetchedAt := 0, contentText := "body", contentHash := "T body", rawPayload := "",
    parserVersion := "v1", status := .NEW }

def c8Db : IngestDb :=
  { sched := { events := [], rules := [], userGames := [], schedules := [] },
    rawNotices := [c8Row], eventRawLinks := [], nextRawNoticeId := 2, nextEventId := 1 }

def c8Cand : RawCandidate :=
  { url := "u", title := "T", publishedAt := some "2026-01-01T00:00:00.000Z",
    contentText := "body", rawPayload := "" }

def c8Source : SourceRow := { id := 1, regionId := 1, regionTimezone := "UTC" }

/-- Counterexample to claim C8 as stated: on an unchanged content hash the
update is not limited to fetchedAt and title — `published_at` is also
refreshed (COALESCE of the candidate value), so a previously null published
date changes. -/
theorem upsertRawNotice_same_hash_changes_published_at :
    (upsertRawNotice (fun s => s) 1 c8Cand 50 c8Db).2.2 = false ∧
    (upsertRawNotice (fun s => s) 1 c8Cand 50 c8Db).1.rawNotices.map
      (fun r => r.publishedAt) = [some "2026-01-01T00:00:00.000Z"] ∧
    c8Db.rawNotices.map (fun r => r.publishedAt) = [none] := by
  refine ⟨by decide, by decide, by decide⟩

/-- Claim C8, amended: when the candidate hash equals the stored hash for the
same (sourceId, url), `upsertRawNotice` refreshes only fetchedAt, title and
published_at (the latter kept when the candidate has none), leaves every other
column and every other table unchanged, reports changed = false, and the fetch
loop then performs no re-parse, no event upsert and no re-planning for that
candidate. -/
theorem upsertRawNotice_same_hash (hash : String → String) (source : SourceRow)
    (candidate : RawCandidate) (now : Int) (db : IngestDb) (existing : RawNoticeRow)
    (hfind : db.rawNotices.find?
      (fun r => r.sourceId == source.id && r.url == candidate.url) = some existing)
    (hhash : existing.contentHash =
      hash (normalizeText (candidate.title ++ "\n" ++ candidate.contentText))) :
    upsertRawNotice hash source.id candidate now db =
      ({ db with rawNotices := db.rawNotices.map (fun r =>
          if r.sourceId == source.id && r.url == candidate.url then
            { r with fetchedAt := now, title := candidate.title,
                     publishedAt := match candidate.publishedAt with
                       | some p => some p
                       | none => r.publishedAt }
          else r) }, existing.id, false) ∧
    processCandidate hash source candidate now db =
      ((upsertRawNotice hash source.id candidate now db).1, false) ∧
    (processCandidate hash source candidate now db).1.sched = db.sched ∧
    (processCandidate hash source candidate now db).1.eventRawLinks =
      db.eventRawLinks := by
  have h1 : upsertRawNotice hash source.id candidate now db =
      ({ db with rawNotices := db.rawNotices.map (fun r =>
          if r.sourceId == source.id && r.url == candidate.url then
            { r with fetchedAt := now, title := candidate.title,
                     publishedAt := match candidate.publishedAt with
                       | some p => some p
                       | none => r.publishedAt }
          else r) }, existing.id, false) := by
    unfold upsertRawNotice
    rw [hfind]
    dsimp only
    rw [if_pos hhash]
  have h2 : processCandidate hash source candidate now db =
      ((upsertRawNotice hash source.id candidate now db).1, false) := by
    unfold processCandidate
    rw [h1]
    rfl
  refine ⟨h1, h2, ?_, ?_⟩
  · rw [h2, h1]
  · rw [h2, h1]

/-- Witness for the amended claim C8 at a concrete store and candidate. -/
theorem upsertRawNotice_same_hash_witness :
    upsertRawNotice (fun s => s) c8Source.id c8Cand 50 c8Db =
      ({ c8Db with rawNotices := c8Db.rawNotices.map (fun r =>
          if r.sourceId == c8Source.id && r.url == c8Cand.url then
            { r with fetchedAt := 50, title := c8Cand.title,
                     publishedAt := match c8Cand.publishedAt with
                       | some p => some p
                       | none => r.publishedAt }
          else r) }, c8Row.id, false) ∧
    processCandidate (fun s => s) c8Source c8Cand 50 c8Db =
      ((upsertRawNotice (fun s => s) c8Source.id c8Cand 50 c8Db).1, false) ∧
    (processCandidate (fun s => s) c8Source c8Cand 50 c8Db).1.sched = c8Db.sched ∧
    (processCandidate (fun s => s) c8Source c8Cand 50 c8Db).1.eventRawLinks =
      c8Db.eventRawLinks :=
  upsertRawNotice_same_hash (fun s => s) c8Source c8Cand 50 c8Db c8Row (by decide)
    (by decide)

end Subculture
